import Mathlib

/-!
# Pod cleanup rules of `main.go`

A shallow embedding of the four cleanup functions of `main.go`
(`cleanupEvictedPods`, `cleanupCrashLoopBackOffPods`, `cleanupImagePullErrorPods`,
`cleanupFailedPods`) and of the body of one tick of the loop of `main`.

The Kubernetes clientset is an external collaborator.  It is represented by a record of
two state-passing operations (`Clientset`), and every cleanup function returns the new
state of the environment together with the list of events it produced (API calls and
log lines), in program order.
-/

namespace KubeCleanup

/-! ## Data model (the fields of the Kubernetes API objects the program reads) -/

/-- The Go type `ContainerStateWaiting`; only `Reason` is read. -/
structure ContainerStateWaiting where
  Reason : String
deriving DecidableEq, Repr

/-- The Go type `ContainerState`; `Waiting` is a pointer, `none` stands for `nil`. -/
structure ContainerState where
  Waiting : Option ContainerStateWaiting
deriving DecidableEq, Repr

/-- The Go type `ContainerStatus`; only `State` is read. -/
structure ContainerStatus where
  State : ContainerState
deriving DecidableEq, Repr

/-- The Go type `PodStatus`; `Phase` is a string type in the API. -/
structure PodStatus where
  Phase : String
  Reason : String
  ContainerStatuses : List ContainerStatus
deriving DecidableEq, Repr

/-- The Go type `Pod`, with the metadata the program and the list call use. -/
structure Pod where
  Namespace : String
  Name : String
  Labels : List (String × String)
  Status : PodStatus
deriving DecidableEq, Repr

/-! ## Environment: the clientset and the observable events -/

/-- Errors returned by the clientset, represented by their text (`%v`). -/
abbrev Err := String

/-- Observable events of a run, in program order. -/
inductive Event where
  /-- A line written with `fmt.Println` / `fmt.Printf`. -/
  | stdout (text : String)
  /-- A line written with `fmt.Fprintf(os.Stderr, ...)`. -/
  | stderr (text : String)
  /-- The call `Pods(ns).List(ctx, ListOptions{LabelSelector: sel})` and its error, if any. -/
  | list (ns sel : String) (err : Option Err)
  /-- The call `Pods(ns).Delete(ctx, name, DeleteOptions{})` and its error, if any. -/
  | delete (ns name : String) (err : Option Err)
deriving DecidableEq, Repr

/-- The two clientset operations the program uses, as state-passing functions over an
environment state `σ`.  `PodsList ns sel` is `CoreV1().Pods(ns).List` with label selector
`sel`; `PodsDelete ns name` is `CoreV1().Pods(ns).Delete` of `name` (`none` = no error). -/
structure Clientset (σ : Type) where
  PodsList : String → String → σ → Except Err (List Pod) × σ
  PodsDelete : String → String → σ → Option Err × σ

/-! ## The four cleanup functions -/

section Code

variable {σ : Type}

/-- The loop `for _, pod := range pods.Items` of `cleanupEvictedPods`. -/
def cleanupEvictedPods.loop (clientset : Clientset σ) : List Pod → σ → σ × List Event
  | [], s => (s, [])
  | pod :: items, s =>
    if pod.Status.Phase == "Failed" && pod.Status.Reason == "Evicted" then
      match clientset.PodsDelete pod.Namespace pod.Name s with
      | (some err, s1) =>
        let r := cleanupEvictedPods.loop clientset items s1
        (r.1, [Event.delete pod.Namespace pod.Name (some err),
               Event.stderr ("Error deleting pod " ++ pod.Name ++ " in namespace "
                 ++ pod.Namespace ++ ": " ++ err ++ "\n")] ++ r.2)
      | (none, s1) =>
        let r := cleanupEvictedPods.loop clientset items s1
        (r.1, [Event.delete pod.Namespace pod.Name none,
               Event.stdout ("Deleted evicted pod " ++ pod.Name ++ " in namespace "
                 ++ pod.Namespace ++ "\n")] ++ r.2)
    else
      cleanupEvictedPods.loop clientset items s

/-- The function `cleanupEvictedPods`. -/
def cleanupEvictedPods (clientset : Clientset σ) (ns labelSelector : String)
    (s : σ) : σ × List Event :=
  match clientset.PodsList ns labelSelector s with
  | (Except.error err, s1) =>
    (s1, [Event.stdout "Cleaning up evicted pods...\n",
          Event.list ns labelSelector (some err),
          Event.stderr ("Error listing pods: " ++ err ++ "\n")])
  | (Except.ok pods, s1) =>
    let r := cleanupEvictedPods.loop clientset pods s1
    (r.1, [Event.stdout "Cleaning up evicted pods...\n",
           Event.list ns labelSelector none] ++ r.2)

/-- The inner loop `for _, containerStatus := range pod.Status.ContainerStatuses` of
`cleanupCrashLoopBackOffPods`; the `break` is the absence of a recursive call. -/
def cleanupCrashLoopBackOffPods.inner (clientset : Clientset σ) (pod : Pod) :
    List ContainerStatus → σ → σ × List Event
  | [], s => (s, [])
  | containerStatus :: rest, s =>
    if (match containerStatus.State.Waiting with
        | some waiting => waiting.Reason == "CrashLoopBackOff"
        | none => false) then
      match clientset.PodsDelete pod.Namespace pod.Name s with
      | (some err, s1) =>
        (s1, [Event.delete pod.Namespace pod.Name (some err),
              Event.stderr ("Error deleting pod " ++ pod.Name ++ " in namespace "
                ++ pod.Namespace ++ ": " ++ err ++ "\n")])
      | (none, s1) =>
        (s1, [Event.delete pod.Namespace pod.Name none,
              Event.stdout ("Deleted pod " ++ pod.Name ++ " in CrashLoopBackOff state in namespace "
                ++ pod.Namespace ++ "\n")])
    else
      cleanupCrashLoopBackOffPods.inner clientset pod rest s

/-- The outer loop `for _, pod := range pods.Items` of `cleanupCrashLoopBackOffPods`. -/
def cleanupCrashLoopBackOffPods.loop (clientset : Clientset σ) : List Pod → σ → σ × List Event
  | [], s => (s, [])
  | pod :: items, s =>
    let r1 := cleanupCrashLoopBackOffPods.inner clientset pod pod.Status.ContainerStatuses s
    let r2 := cleanupCrashLoopBackOffPods.loop clientset items r1.1
    (r2.1, r1.2 ++ r2.2)

/-- The function `cleanupCrashLoopBackOffPods`. -/
def cleanupCrashLoopBackOffPods (clientset : Clientset σ) (ns labelSelector : String)
    (s : σ) : σ × List Event :=
  match clientset.PodsList ns labelSelector s with
  | (Except.error err, s1) =>
    (s1, [Event.stdout "Cleaning up pods in CrashLoopBackOff state...\n",
          Event.list ns labelSelector (some err),
          Event.stderr ("Error listing pods: " ++ err ++ "\n")])
  | (Except.ok pods, s1) =>
    let r := cleanupCrashLoopBackOffPods.loop clientset pods s1
    (r.1, [Event.stdout "Cleaning up pods in CrashLoopBackOff state...\n",
           Event.list ns labelSelector none] ++ r.2)

/-- The inner loop `for _, containerStatus := range pod.Status.ContainerStatuses` of
`cleanupImagePullErrorPods`; the `break` is the absence of a recursive call. -/
def cleanupImagePullErrorPods.inner (clientset : Clientset σ) (pod : Pod) :
    List ContainerStatus → σ → σ × List Event
  | [], s => (s, [])
  | containerStatus :: rest, s =>
    if (match containerStatus.State.Waiting with
        | some waiting => waiting.Reason == "ImagePullBackOff"
        | none => false) then
      match clientset.PodsDelete pod.Namespace pod.Name s with
      | (some err, s1) =>
        (s1, [Event.delete pod.Namespace pod.Name (some err),
              Event.stderr ("Error deleting pod " ++ pod.Name ++ " in namespace "
                ++ pod.Namespace ++ ": " ++ err ++ "\n")])
      | (none, s1) =>
        (s1, [Event.delete pod.Namespace pod.Name none,
              Event.stdout ("Deleted pod " ++ pod.Name ++ " with ImagePullError in namespace "
                ++ pod.Namespace ++ "\n")])
    else
      cleanupImagePullErrorPods.inner clientset pod rest s

/-- The outer loop `for _, pod := range pods.Items` of `cleanupImagePullErrorPods`. -/
def cleanupImagePullErrorPods.loop (clientset : Clientset σ) : List Pod → σ → σ × List Event
  | [], s => (s, [])
  | pod :: items, s =>
    let r1 := cleanupImagePullErrorPods.inner clientset pod pod.Status.ContainerStatuses s
    let r2 := cleanupImagePullErrorPods.loop clientset items r1.1
    (r2.1, r1.2 ++ r2.2)

/-- The function `cleanupImagePullErrorPods`. -/
def cleanupImagePullErrorPods (clientset : Clientset σ) (ns labelSelector : String)
    (s : σ) : σ × List Event :=
  match clientset.PodsList ns labelSelector s with
  | (Except.error err, s1) =>
    (s1, [Event.stdout "Cleaning up pods with ImagePullError...\n",
          Event.list ns labelSelector (some err),
          Event.stderr ("Error listing pods: " ++ err ++ "\n")])
  | (Except.ok pods, s1) =>
    let r := cleanupImagePullErrorPods.loop clientset pods s1
    (r.1, [Event.stdout "Cleaning up pods with ImagePullError...\n",
           Event.list ns labelSelector none] ++ r.2)

/-- The loop `for _, pod := range pods.Items` of `cleanupFailedPods`. -/
def cleanupFailedPods.loop (clientset : Clientset σ) : List Pod → σ → σ × List Event
  | [], s => (s, [])
  | pod :: items, s =>
    if pod.Status.Phase == "Failed" && pod.Status.Reason != "Evicted" then
      match clientset.PodsDelete pod.Namespace pod.Name s with
      | (some err, s1) =>
        let r := cleanupFailedPods.loop clientset items s1
        (r.1, [Event.delete pod.Namespace pod.Name (some err),
               Event.stderr ("Error deleting pod " ++ pod.Name ++ " in namespace "
                 ++ pod.Namespace ++ ": " ++ err ++ "\n")] ++ r.2)
      | (none, s1) =>
        let r := cleanupFailedPods.loop clientset items s1
        (r.1, [Event.delete pod.Namespace pod.Name none,
               Event.stdout ("Deleted pod " ++ pod.Name ++ " in Failed state in namespace "
                 ++ pod.Namespace ++ "\n")] ++ r.2)
    else
      cleanupFailedPods.loop clientset items s

/-- The function `cleanupFailedPods`. -/
def cleanupFailedPods (clientset : Clientset σ) (ns labelSelector : String)
    (s : σ) : σ × List Event :=
  match clientset.PodsList ns labelSelector s with
  | (Except.error err, s1) =>
    (s1, [Event.stdout "Cleaning up pods in Failed state...\n",
          Event.list ns labelSelector (some err),
          Event.stderr ("Error listing pods: " ++ err ++ "\n")])
  | (Except.ok pods, s1) =>
    let r := cleanupFailedPods.loop clientset pods s1
    (r.1, [Event.stdout "Cleaning up pods in Failed state...\n",
           Event.list ns labelSelector none] ++ r.2)

/-- The body of `case <-cleanupTicker.C:` in `main`: one cleanup pass, the four functions
called one after the other with the same namespace `ns` (`*namespace` in the source) and
label selector. -/
def cleanupPass (clientset : Clientset σ) (ns labelSelector : String)
    (s : σ) : σ × List Event :=
  let r1 := cleanupEvictedPods clientset ns labelSelector s
  let r2 := cleanupCrashLoopBackOffPods clientset ns labelSelector r1.1
  let r3 := cleanupImagePullErrorPods clientset ns labelSelector r2.1
  let r4 := cleanupFailedPods clientset ns labelSelector r3.1
  (r4.1, r1.2 ++ r2.2 ++ r3.2 ++ r4.2)

end Code

/-! ## The rules as data, and the specification-side predicates -/

/-- The address of a delete request: the pod's own namespace and name. -/
def Pod.key (p : Pod) : String × String := (p.Namespace, p.Name)

/-- Specification predicate "some entry of `containerStatuses` is in a waiting state with
the given reason". -/
def hasWaitingReason (reason : String) (p : Pod) : Bool :=
  p.Status.ContainerStatuses.any fun cs => cs.State.Waiting == some ⟨reason⟩

/-- The four cleanup rules. -/
inductive Rule where
  | evicted
  | crashLoop
  | imagePull
  | failed
deriving DecidableEq, Repr

/-- The match predicate of each rule, as the rule table of the specification words it. -/
def Rule.pred : Rule → Pod → Bool
  | Rule.evicted, p => decide (p.Status.Phase = "Failed" ∧ p.Status.Reason = "Evicted")
  | Rule.crashLoop, p => hasWaitingReason "CrashLoopBackOff" p
  | Rule.imagePull, p => hasWaitingReason "ImagePullBackOff" p
  | Rule.failed, p => decide (p.Status.Phase = "Failed" ∧ p.Status.Reason ≠ "Evicted")

/-- The source function implementing each rule. -/
def Rule.run {σ : Type} : Rule → Clientset σ → String → String → σ → σ × List Event
  | Rule.evicted => cleanupEvictedPods
  | Rule.crashLoop => cleanupCrashLoopBackOffPods
  | Rule.imagePull => cleanupImagePullErrorPods
  | Rule.failed => cleanupFailedPods

/-- The order in which `main` calls the four functions. -/
def mainOrder : List Rule := [Rule.evicted, Rule.crashLoop, Rule.imagePull, Rule.failed]

/-- The rules of `order` run one after the other, each with its own list call. -/
def runRules {σ : Type} (clientset : Clientset σ) (ns labelSelector : String) :
    List Rule → σ → σ × List Event
  | [], s => (s, [])
  | r :: order, s =>
    let r1 := r.run clientset ns labelSelector s
    let r2 := runRules clientset ns labelSelector order r1.1
    (r2.1, r1.2 ++ r2.2)

/-! ## Projections of a trace -/

/-- The API calls of a trace (the log lines are dropped). -/
def apiCalls (t : List Event) : List Event :=
  t.filter fun e => match e with
    | Event.list _ _ _ => true
    | Event.delete _ _ _ => true
    | _ => false

/-- The delete requests of a trace, each as (namespace, name), in order. -/
def deleteRequests (t : List Event) : List (String × String) :=
  t.filterMap fun e => match e with
    | Event.delete ns name _ => some (ns, name)
    | _ => none

/-- The delete requests of a trace that returned no error. -/
def deleted (t : List Event) : List (String × String) :=
  t.filterMap fun e => match e with
    | Event.delete ns name none => some (ns, name)
    | _ => none

/-- The list calls of a trace, each as (namespace, label selector), in order. -/
def listCalls (t : List Event) : List (String × String) :=
  t.filterMap fun e => match e with
    | Event.list ns sel _ => some (ns, sel)
    | _ => none

/-- One delete call per pod of the list, in order: the reference behaviour of a rule's loop
on the pods it selects. -/
def deleteEach {σ : Type} (clientset : Clientset σ) : List Pod → σ → σ × List Event
  | [], s => (s, [])
  | p :: ps, s =>
    let d := clientset.PodsDelete p.Namespace p.Name s
    let r := deleteEach clientset ps d.2
    (r.1, Event.delete p.Namespace p.Name d.1 :: r.2)

/-- Reference behaviour of a rule, API calls only: one list call, then (when it succeeded)
one delete call per listed pod that satisfies the rule's predicate. -/
def Rule.api {σ : Type} (r : Rule) (clientset : Clientset σ) (ns labelSelector : String)
    (s : σ) : σ × List Event :=
  match clientset.PodsList ns labelSelector s with
  | (Except.error err, s1) => (s1, [Event.list ns labelSelector (some err)])
  | (Except.ok pods, s1) =>
    let d := deleteEach clientset (pods.filter r.pred) s1
    (d.1, Event.list ns labelSelector none :: d.2)

/-- Reference behaviour of the rules of `order` run one after the other, API calls only:
each rule makes its own list call in the state the previous rule left. -/
def apiRules {σ : Type} (clientset : Clientset σ) (ns labelSelector : String) :
    List Rule → σ → σ × List Event
  | [], s => (s, [])
  | r :: order, s =>
    let a := r.api clientset ns labelSelector s
    let b := apiRules clientset ns labelSelector order a.1
    (b.1, a.2 ++ b.2)

/-- The delete calls for the pods of a list, in order, the first of them answered by
`dels j`, the next by `dels (j + 1)`, and so on. -/
def scriptedDeletes (dels : Nat → Option Err) : List Pod → Nat → List Event
  | [], _ => []
  | p :: ps, j => Event.delete p.Namespace p.Name (dels j) :: scriptedDeletes dels ps (j + 1)

/-! ## Model environments -/

/-- Environment model (not program code): a clientset that answers from a script.  The
`i`-th list call returns `lists i`, the `j`-th delete call returns `dels j` (`none` is
success).  The state counts the list calls and the delete calls made so far. -/
def scriptedClient (lists : Nat → Except Err (List Pod)) (dels : Nat → Option Err) :
    Clientset (Nat × Nat) where
  PodsList := fun _ _ s => (lists s.1, (s.1 + 1, s.2))
  PodsDelete := fun _ _ s => (dels s.2, (s.1, s.2 + 1))

/-- Membership of a pod in a scope: the empty namespace means all namespaces; the meaning
of label selectors is the parameter `labelMatch`. -/
def inScope (labelMatch : String → List (String × String) → Bool) (ns labelSelector : String)
    (p : Pod) : Bool :=
  (ns == "" || p.Namespace == ns) && labelMatch labelSelector p.Labels

/-- Environment model (not program code): the model cluster.  The state is the list of
pods present; listing returns the pods in scope, in the order of the state, and leaves the
state alone; a delete removes the entries with the given namespace and name when there is
one (exactly one when names are unique), and fails, leaving the state alone, when there is
none. -/
def modelCluster (labelMatch : String → List (String × String) → Bool) :
    Clientset (List Pod) where
  PodsList := fun ns sel pods => (Except.ok (pods.filter (inScope labelMatch ns sel)), pods)
  PodsDelete := fun ns name pods =>
    if pods.any (fun p => p.key == (ns, name)) then
      (none, pods.filter (fun p => p.key != (ns, name)))
    else
      (some ("pods \"" ++ name ++ "\" not found"), pods)

/-- Names are unique within a namespace. -/
def uniqueNames (pods : List Pod) : Prop := (pods.map Pod.key).Nodup

/-- The delete requests a rule issues when its list call returns the snapshot `S`. -/
def Rule.requestsOn (r : Rule) (S : List Pod) : List (String × String) :=
  deleteRequests (r.run (scriptedClient (fun _ => Except.ok S) (fun _ => none)) "" "" (0, 0)).2

/-- A rule selects a pod when, given a snapshot made of that pod, it requests its deletion. -/
def Rule.selects (r : Rule) (p : Pod) : Prop := r.requestsOn [p] = [p.key]

/-- A rule skips a pod when, given a snapshot made of that pod, it requests no deletion. -/
def Rule.skips (r : Rule) (p : Pod) : Prop := r.requestsOn [p] = []

/-- The names of the pods of the cluster state `X` that are in scope and satisfy the
predicate of at least one of the rules `rs`. -/
def selectedKeys (labelMatch : String → List (String × String) → Bool) (ns labelSelector : String)
    (rs : List Rule) (X : List Pod) : List (String × String) :=
  (X.filter fun p => inScope labelMatch ns labelSelector p && rs.any fun r => r.pred p).map Pod.key

/-- The delete requests a list result leads to under rule `r`. -/
def Rule.expected (r : Rule) : Except Err (List Pod) → List (String × String)
  | Except.error _ => []
  | Except.ok S => (S.filter r.pred).map Pod.key

/-! ## Example pods -/

/-- Pod `a/p1`: Failed, Evicted, no container status. -/
def podP1 : Pod := ⟨"a", "p1", [], ⟨"Failed", "Evicted", []⟩⟩

/-- Pod `a/p2`: Running. -/
def podP2 : Pod := ⟨"a", "p2", [], ⟨"Running", "", [⟨⟨none⟩⟩]⟩⟩

/-- Pod `a/p3`: a container waiting with reason CrashLoopBackOff. -/
def podP3 : Pod := ⟨"a", "p3", [], ⟨"Running", "", [⟨⟨some ⟨"CrashLoopBackOff"⟩⟩⟩]⟩⟩

/-- Pod `a/p4`: Failed, Evicted, and two containers waiting with reason CrashLoopBackOff. -/
def podP4 : Pod :=
  ⟨"a", "p4", [], ⟨"Failed", "Evicted",
    [⟨⟨some ⟨"CrashLoopBackOff"⟩⟩⟩, ⟨⟨some ⟨"CrashLoopBackOff"⟩⟩⟩]⟩⟩

/-- Pod `a/p6`: Failed with an empty reason. -/
def podP6 : Pod := ⟨"a", "p6", [], ⟨"Failed", "", []⟩⟩

/-- Pod `b/p7`: Pending, three containers waiting with reason ImagePullBackOff. -/
def podP7 : Pod :=
  ⟨"b", "p7", [], ⟨"Pending", "",
    [⟨⟨some ⟨"ImagePullBackOff"⟩⟩⟩, ⟨⟨some ⟨"ImagePullBackOff"⟩⟩⟩, ⟨⟨some ⟨"ImagePullBackOff"⟩⟩⟩]⟩⟩

/-- Pod `b/p8`: Running, a container waiting with reason ContainerCreating. -/
def podP8 : Pod := ⟨"b", "p8", [], ⟨"Running", "", [⟨⟨some ⟨"ContainerCreating"⟩⟩⟩]⟩⟩

/-- Pod `b/p5`: Failed with reason OOMKilled and a container waiting with ImagePullBackOff. -/
def podP5 : Pod := ⟨"b", "p5", [], ⟨"Failed", "OOMKilled", [⟨⟨some ⟨"ImagePullBackOff"⟩⟩⟩]⟩⟩

/-! ## Refinement: every source function behaves as `Rule.api` -/

section Refinement

variable {σ : Type}

theorem apiCalls_append (t u : List Event) : apiCalls (t ++ u) = apiCalls t ++ apiCalls u := by
  simp [apiCalls]

theorem deleteRequests_append (t u : List Event) :
    deleteRequests (t ++ u) = deleteRequests t ++ deleteRequests u := by
  simp [deleteRequests]

theorem deleted_append (t u : List Event) : deleted (t ++ u) = deleted t ++ deleted u := by
  simp [deleted]

theorem listCalls_append (t u : List Event) : listCalls (t ++ u) = listCalls t ++ listCalls u := by
  simp [listCalls]

theorem deleteRequests_apiCalls (t : List Event) :
    deleteRequests (apiCalls t) = deleteRequests t := by
  induction t with
  | nil => rfl
  | cons e t ih => cases e <;> simp_all [apiCalls, deleteRequests]

theorem deleted_apiCalls (t : List Event) : deleted (apiCalls t) = deleted t := by
  induction t with
  | nil => rfl
  | cons e t ih =>
    unfold apiCalls deleted at *
    cases e with
    | delete ns name err =>
      rw [List.filter_cons_of_pos (by simp), List.filterMap_cons, List.filterMap_cons, ih]
    | list ns sel err =>
      rw [List.filter_cons_of_pos (by simp), List.filterMap_cons, List.filterMap_cons, ih]
    | stdout text =>
      rw [List.filter_cons_of_neg (by simp), List.filterMap_cons, ih]
    | stderr text =>
      rw [List.filter_cons_of_neg (by simp), List.filterMap_cons, ih]

theorem listCalls_apiCalls (t : List Event) : listCalls (apiCalls t) = listCalls t := by
  induction t with
  | nil => rfl
  | cons e t ih => cases e <;> simp_all [apiCalls, listCalls]

theorem evicted_loop_api (c : Clientset σ) (S : List Pod) (s : σ) :
    ((cleanupEvictedPods.loop c S s).1, apiCalls (cleanupEvictedPods.loop c S s).2)
      = deleteEach c (S.filter Rule.evicted.pred) s := by
  induction S generalizing s with
  | nil => rfl
  | cons p S ih =>
    by_cases h : p.Status.Phase = "Failed" ∧ p.Status.Reason = "Evicted"
    · have hp : Rule.pred Rule.evicted p = true := by simp [Rule.pred, h]
      rw [List.filter_cons_of_pos hp]
      simp only [cleanupEvictedPods.loop, deleteEach, h, beq_self_eq_true, Bool.and_self, if_true]
      rcases hd : c.PodsDelete p.Namespace p.Name s with ⟨_ | err, s1⟩ <;>
        simp [apiCalls_append, ← ih s1] <;> simp [apiCalls]
    · have hp : ¬ Rule.pred Rule.evicted p = true := by simp [Rule.pred, h]
      rw [List.filter_cons_of_neg hp]
      have hc : (p.Status.Phase == "Failed" && p.Status.Reason == "Evicted") = false := by
        simpa using h
      simp only [cleanupEvictedPods.loop, hc]
      exact ih s

theorem failed_loop_api (c : Clientset σ) (S : List Pod) (s : σ) :
    ((cleanupFailedPods.loop c S s).1, apiCalls (cleanupFailedPods.loop c S s).2)
      = deleteEach c (S.filter Rule.failed.pred) s := by
  induction S generalizing s with
  | nil => rfl
  | cons p S ih =>
    by_cases h : p.Status.Phase = "Failed" ∧ p.Status.Reason ≠ "Evicted"
    · have hp : Rule.pred Rule.failed p = true := by simp [Rule.pred, h]
      rw [List.filter_cons_of_pos hp]
      have hc : (p.Status.Phase == "Failed" && p.Status.Reason != "Evicted") = true := by
        simpa using h
      simp only [cleanupFailedPods.loop, deleteEach, hc, if_true]
      rcases hd : c.PodsDelete p.Namespace p.Name s with ⟨_ | err, s1⟩ <;>
        simp [apiCalls_append, ← ih s1] <;> simp [apiCalls]
    · have hp : ¬ Rule.pred Rule.failed p = true := by simp [Rule.pred, h]
      rw [List.filter_cons_of_neg hp]
      have hc : (p.Status.Phase == "Failed" && p.Status.Reason != "Evicted") = false := by
        simpa using h
      simp only [cleanupFailedPods.loop, hc]
      exact ih s

theorem waiting_cond (reason : String) (cs : ContainerStatus) :
    (match cs.State.Waiting with
      | some waiting => waiting.Reason == reason
      | none => false) = (cs.State.Waiting == some ⟨reason⟩) := by
  obtain ⟨⟨w⟩⟩ := cs
  cases w with
  | none => rfl
  | some w =>
    obtain ⟨r⟩ := w
    by_cases h : r = reason
    · subst h; simp
    · have h1 : (r == reason) = false := by simpa using h
      have h2 : ((some (ContainerStateWaiting.mk r)) == some ⟨reason⟩) = false := by
        simpa using h
      simp only [h1, h2]

theorem crash_inner_api (c : Clientset σ) (pod : Pod) (css : List ContainerStatus) (s : σ) :
    ((cleanupCrashLoopBackOffPods.inner c pod css s).1,
      apiCalls (cleanupCrashLoopBackOffPods.inner c pod css s).2)
      = if css.any (fun cs => cs.State.Waiting == some ⟨"CrashLoopBackOff"⟩) then
          deleteEach c [pod] s else (s, []) := by
  induction css with
  | nil => rfl
  | cons cs css ih =>
    simp only [cleanupCrashLoopBackOffPods.inner, waiting_cond, List.any_cons]
    by_cases h : (cs.State.Waiting == some ⟨"CrashLoopBackOff"⟩) = true
    · simp only [h, if_true, Bool.true_or, deleteEach]
      rcases hd : c.PodsDelete pod.Namespace pod.Name s with ⟨_ | err, s1⟩ <;> simp [apiCalls]
    · have h2 : (cs.State.Waiting == some ⟨"CrashLoopBackOff"⟩) = false := by simpa using h
      simp only [h2, Bool.false_eq_true, if_false, Bool.false_or]
      exact ih

theorem crash_loop_api (c : Clientset σ) (S : List Pod) (s : σ) :
    ((cleanupCrashLoopBackOffPods.loop c S s).1,
      apiCalls (cleanupCrashLoopBackOffPods.loop c S s).2)
      = deleteEach c (S.filter Rule.crashLoop.pred) s := by
  induction S generalizing s with
  | nil => rfl
  | cons p S ih =>
    have hin := crash_inner_api c p p.Status.ContainerStatuses s
    simp only [cleanupCrashLoopBackOffPods.loop, apiCalls_append]
    by_cases hp : Rule.pred Rule.crashLoop p = true
    · rw [List.filter_cons_of_pos hp]
      have hany : (p.Status.ContainerStatuses.any
          (fun cs => cs.State.Waiting == some ⟨"CrashLoopBackOff"⟩)) = true := hp
      rw [hany] at hin
      simp only [if_true, deleteEach, Prod.mk.injEq] at hin
      rw [hin.1, hin.2]
      simp [deleteEach, ← ih]
    · rw [List.filter_cons_of_neg hp]
      have hany : (p.Status.ContainerStatuses.any
          (fun cs => cs.State.Waiting == some ⟨"CrashLoopBackOff"⟩)) = false := by
        simpa [Rule.pred, hasWaitingReason] using hp
      rw [hany] at hin
      simp only [Bool.false_eq_true, if_false, Prod.mk.injEq] at hin
      rw [hin.1, hin.2]
      simpa using ih s

theorem image_inner_api (c : Clientset σ) (pod : Pod) (css : List ContainerStatus) (s : σ) :
    ((cleanupImagePullErrorPods.inner c pod css s).1,
      apiCalls (cleanupImagePullErrorPods.inner c pod css s).2)
      = if css.any (fun cs => cs.State.Waiting == some ⟨"ImagePullBackOff"⟩) then
          deleteEach c [pod] s else (s, []) := by
  induction css with
  | nil => rfl
  | cons cs css ih =>
    simp only [cleanupImagePullErrorPods.inner, waiting_cond, List.any_cons]
    by_cases h : (cs.State.Waiting == some ⟨"ImagePullBackOff"⟩) = true
    · simp only [h, if_true, Bool.true_or, deleteEach]
      rcases hd : c.PodsDelete pod.Namespace pod.Name s with ⟨_ | err, s1⟩ <;> simp [apiCalls]
    · have h2 : (cs.State.Waiting == some ⟨"ImagePullBackOff"⟩) = false := by simpa using h
      simp only [h2, Bool.false_eq_true, if_false, Bool.false_or]
      exact ih

theorem image_loop_api (c : Clientset σ) (S : List Pod) (s : σ) :
    ((cleanupImagePullErrorPods.loop c S s).1,
      apiCalls (cleanupImagePullErrorPods.loop c S s).2)
      = deleteEach c (S.filter Rule.imagePull.pred) s := by
  induction S generalizing s with
  | nil => rfl
  | cons p S ih =>
    have hin := image_inner_api c p p.Status.ContainerStatuses s
    simp only [cleanupImagePullErrorPods.loop, apiCalls_append]
    by_cases hp : Rule.pred Rule.imagePull p = true
    · rw [List.filter_cons_of_pos hp]
      have hany : (p.Status.ContainerStatuses.any
          (fun cs => cs.State.Waiting == some ⟨"ImagePullBackOff"⟩)) = true := hp
      rw [hany] at hin
      simp only [if_true, deleteEach, Prod.mk.injEq] at hin
      rw [hin.1, hin.2]
      simp [deleteEach, ← ih]
    · rw [List.filter_cons_of_neg hp]
      have hany : (p.Status.ContainerStatuses.any
          (fun cs => cs.State.Waiting == some ⟨"ImagePullBackOff"⟩)) = false := by
        simpa [Rule.pred, hasWaitingReason] using hp
      rw [hany] at hin
      simp only [Bool.false_eq_true, if_false, Prod.mk.injEq] at hin
      rw [hin.1, hin.2]
      simpa using ih s

/-- Every source function, seen through its API calls, is its reference behaviour. -/
theorem run_api (r : Rule) (c : Clientset σ) (ns sel : String) (s : σ) :
    ((r.run c ns sel s).1, apiCalls (r.run c ns sel s).2) = r.api c ns sel s := by
  cases r
  · simp only [Rule.run, Rule.api, cleanupEvictedPods]
    rcases hl : c.PodsList ns sel s with ⟨_ | S, s1⟩
    · simp [apiCalls]
    · simp only [apiCalls_append, ← evicted_loop_api]; simp [apiCalls]
  · simp only [Rule.run, Rule.api, cleanupCrashLoopBackOffPods]
    rcases hl : c.PodsList ns sel s with ⟨_ | S, s1⟩
    · simp [apiCalls]
    · simp only [apiCalls_append, ← crash_loop_api]; simp [apiCalls]
  · simp only [Rule.run, Rule.api, cleanupImagePullErrorPods]
    rcases hl : c.PodsList ns sel s with ⟨_ | S, s1⟩
    · simp [apiCalls]
    · simp only [apiCalls_append, ← image_loop_api]; simp [apiCalls]
  · simp only [Rule.run, Rule.api, cleanupFailedPods]
    rcases hl : c.PodsList ns sel s with ⟨_ | S, s1⟩
    · simp [apiCalls]
    · simp only [apiCalls_append, ← failed_loop_api]; simp [apiCalls]

theorem cleanupPass_eq_runRules (c : Clientset σ) (ns sel : String) (s : σ) :
    cleanupPass c ns sel s = runRules c ns sel mainOrder s := by
  simp [cleanupPass, runRules, mainOrder, Rule.run, List.append_assoc]

end Refinement

/-! ## What a rule requests, for an arbitrary clientset -/

section Requests

variable {σ : Type}

theorem deleteRequests_deleteEach (c : Clientset σ) (L : List Pod) (s : σ) :
    deleteRequests (deleteEach c L s).2 = L.map Pod.key := by
  induction L generalizing s with
  | nil => rfl
  | cons p L ih => simp [deleteEach, deleteRequests, Pod.key, ← ih (c.PodsDelete p.Namespace p.Name s).2]

theorem listCalls_deleteEach (c : Clientset σ) (L : List Pod) (s : σ) :
    listCalls (deleteEach c L s).2 = [] := by
  induction L generalizing s with
  | nil => rfl
  | cons p L ih =>
    have := ih (c.PodsDelete p.Namespace p.Name s).2
    simp_all [deleteEach, listCalls]

theorem deleteRequests_run (r : Rule) (c : Clientset σ) (ns sel : String) (s : σ) :
    deleteRequests (r.run c ns sel s).2 = r.expected (c.PodsList ns sel s).1 := by
  have h := congrArg (fun x => deleteRequests x.2) (run_api r c ns sel s)
  simp only [deleteRequests_apiCalls] at h
  rw [h, Rule.api]
  rcases hl : c.PodsList ns sel s with ⟨_ | S, s1⟩
  · simp [deleteRequests, Rule.expected]
  · have := deleteRequests_deleteEach c (S.filter r.pred) s1
    simp_all [deleteRequests, Rule.expected]

theorem listCalls_run (r : Rule) (c : Clientset σ) (ns sel : String) (s : σ) :
    listCalls (r.run c ns sel s).2 = [(ns, sel)] := by
  have h := congrArg (fun x => listCalls x.2) (run_api r c ns sel s)
  simp only [listCalls_apiCalls] at h
  rw [h, Rule.api]
  rcases hl : c.PodsList ns sel s with ⟨_ | S, s1⟩
  · simp [listCalls]
  · have := listCalls_deleteEach c (S.filter r.pred) s1
    simp_all [listCalls]

theorem requestsOn_eq (r : Rule) (S : List Pod) :
    r.requestsOn S = (S.filter r.pred).map Pod.key := by
  simp [Rule.requestsOn, deleteRequests_run, scriptedClient, Rule.expected]

theorem selects_iff (r : Rule) (p : Pod) : r.selects p ↔ r.pred p = true := by
  unfold Rule.selects
  rw [requestsOn_eq]
  by_cases h : r.pred p = true <;> simp [h]

theorem skips_iff (r : Rule) (p : Pod) : r.skips p ↔ r.pred p = false := by
  unfold Rule.skips
  rw [requestsOn_eq]
  by_cases h : r.pred p = true <;> simp [h]

theorem deleteRequests_cleanupPass (c : Clientset σ) (ns sel : String) (s : σ) :
    deleteRequests (cleanupPass c ns sel s).2 =
      deleteRequests (cleanupEvictedPods c ns sel s).2
      ++ deleteRequests (cleanupCrashLoopBackOffPods c ns sel
          (cleanupEvictedPods c ns sel s).1).2
      ++ deleteRequests (cleanupImagePullErrorPods c ns sel
          (cleanupCrashLoopBackOffPods c ns sel (cleanupEvictedPods c ns sel s).1).1).2
      ++ deleteRequests (cleanupFailedPods c ns sel
          (cleanupImagePullErrorPods c ns sel
            (cleanupCrashLoopBackOffPods c ns sel (cleanupEvictedPods c ns sel s).1).1).1).2 := by
  simp [cleanupPass, deleteRequests_append]

theorem listCalls_cleanupPass (c : Clientset σ) (ns sel : String) (s : σ) :
    listCalls (cleanupPass c ns sel s).2 = [(ns, sel), (ns, sel), (ns, sel), (ns, sel)] := by
  have h1 := fun s0 => listCalls_run Rule.evicted c ns sel s0
  have h2 := fun s0 => listCalls_run Rule.crashLoop c ns sel s0
  have h3 := fun s0 => listCalls_run Rule.imagePull c ns sel s0
  have h4 := fun s0 => listCalls_run Rule.failed c ns sel s0
  simp only [Rule.run] at h1 h2 h3 h4
  simp [cleanupPass, listCalls_append, h1, h2, h3, h4]

end Requests

/-! ## The rules on the model cluster -/

section Model

variable (labelMatch : String → List (String × String) → Bool)

theorem model_delete_state (ns name : String) (pods : List Pod) :
    ((modelCluster labelMatch).PodsDelete ns name pods).2
      = pods.filter (fun p => p.key != (ns, name)) := by
  simp only [modelCluster]
  split
  · rfl
  · rename_i h
    symm
    rw [List.filter_eq_self]
    intro a ha
    simp only [List.any_eq_true, not_exists, not_and] at h
    have := h a ha
    simpa using this

theorem model_delete_ok (ns name : String) (pods : List Pod) :
    ((modelCluster labelMatch).PodsDelete ns name pods).1 = none ↔ (ns, name) ∈ pods.map Pod.key := by
  simp only [modelCluster]
  split
  · rename_i h
    simp only [List.any_eq_true] at h
    obtain ⟨q, hq, hk⟩ := h
    simp only [List.mem_map, true_iff]
    exact ⟨q, hq, by simpa using hk⟩
  · rename_i h
    simp only [List.any_eq_true, not_exists, not_and] at h
    simp only [List.mem_map, false_iff, not_exists, not_and, reduceCtorEq]
    intro q hq hk
    exact h q hq (by simpa using hk)

theorem model_deleteEach_state (L pods : List Pod) :
    (deleteEach (modelCluster labelMatch) L pods).1
      = pods.filter (fun p => decide (p.key ∉ L.map Pod.key)) := by
  induction L generalizing pods with
  | nil => simp [deleteEach]
  | cons q L ih =>
    simp only [deleteEach]
    rw [ih, model_delete_state, List.filter_filter]
    apply List.filter_congr
    intro p _
    have hq : (q.Namespace, q.Name) = q.key := rfl
    rw [hq]
    by_cases h1 : p.key = q.key
    · simp [h1]
    · simp [h1]

theorem model_mem_deleted_deleteEach (L pods : List Pod) (k : String × String) :
    k ∈ deleted (deleteEach (modelCluster labelMatch) L pods).2
      ↔ k ∈ L.map Pod.key ∧ k ∈ pods.map Pod.key := by
  induction L generalizing pods with
  | nil => simp [deleteEach, deleted]
  | cons q L ih =>
    have hst := model_delete_state labelMatch q.Namespace q.Name pods
    have hok := model_delete_ok labelMatch q.Namespace q.Name pods
    have hrest := ih ((modelCluster labelMatch).PodsDelete q.Namespace q.Name pods).2
    rw [hst] at hrest
    have hmem : k ∈ (pods.filter (fun p => p.key != (q.Namespace, q.Name))).map Pod.key
        ↔ k ∈ pods.map Pod.key ∧ k ≠ q.key := by
      simp only [List.mem_map, List.mem_filter]
      constructor
      · rintro ⟨p, ⟨hp, hne⟩, rfl⟩
        exact ⟨⟨p, hp, rfl⟩, by simpa [Pod.key] using hne⟩
      · rintro ⟨⟨p, hp, rfl⟩, hne⟩
        exact ⟨p, ⟨hp, by simpa [Pod.key] using hne⟩, rfl⟩
    rw [hmem] at hrest
    simp only [deleteEach]
    rcases hd : ((modelCluster labelMatch).PodsDelete q.Namespace q.Name pods).1 with _ | err
    · have hin : q.key ∈ pods.map Pod.key := hok.1 hd
      have hcons : ∀ t : List Event, deleted (Event.delete q.Namespace q.Name none :: t)
          = q.key :: deleted t := fun t => rfl
      rw [hcons, List.mem_cons, hst, hrest, List.map_cons, List.mem_cons]
      constructor
      · rintro (h | ⟨h1, h2, _⟩)
        · exact ⟨Or.inl h, h ▸ hin⟩
        · exact ⟨Or.inr h1, h2⟩
      · rintro ⟨h | h, h2⟩
        · exact Or.inl h
        · by_cases hk : k = q.key
          · exact Or.inl hk
          · exact Or.inr ⟨h, h2, hk⟩
    · have hnin : q.key ∉ pods.map Pod.key := fun h => by
        have := hok.2 h
        rw [hd] at this
        cases this
      have hcons : ∀ t : List Event, deleted (Event.delete q.Namespace q.Name (some err) :: t)
          = deleted t := fun t => rfl
      rw [hcons, hst, hrest, List.map_cons, List.mem_cons]
      constructor
      · rintro ⟨h1, h2, _⟩
        exact ⟨Or.inr h1, h2⟩
      · rintro ⟨h | h, h2⟩
        · exact absurd (h ▸ h2) hnin
        · exact ⟨h, h2, fun hk => hnin (hk ▸ h2)⟩

theorem mem_selectedKeys (ns sel : String) (rs : List Rule) (X : List Pod)
    (k : String × String) :
    k ∈ selectedKeys labelMatch ns sel rs X
      ↔ ∃ q ∈ X, inScope labelMatch ns sel q = true ∧ (∃ r ∈ rs, r.pred q = true) ∧ q.key = k := by
  simp only [selectedKeys, List.mem_map, List.mem_filter, Bool.and_eq_true, List.any_eq_true]
  constructor
  · rintro ⟨q, ⟨hq, hs, hr⟩, hk⟩
    exact ⟨q, hq, hs, hr, hk⟩
  · rintro ⟨q, hq, hs, hr, hk⟩
    exact ⟨q, ⟨hq, hs, hr⟩, hk⟩

theorem selectedKeys_single (ns sel : String) (r : Rule) (X : List Pod) :
    selectedKeys labelMatch ns sel [r] X
      = ((X.filter (inScope labelMatch ns sel)).filter r.pred).map Pod.key := by
  simp only [selectedKeys, List.filter_filter]
  congr 1
  apply List.filter_congr
  intro p _
  simp [Bool.and_comm]

theorem model_run_state (r : Rule) (ns sel : String) (X : List Pod) :
    (r.run (modelCluster labelMatch) ns sel X).1
      = X.filter (fun p => decide (p.key ∉ selectedKeys labelMatch ns sel [r] X)) := by
  have h := congrArg Prod.fst (run_api r (modelCluster labelMatch) ns sel X)
  simp only at h
  rw [h, selectedKeys_single]
  simp only [Rule.api, modelCluster]
  exact model_deleteEach_state labelMatch _ X

theorem model_run_requests (r : Rule) (ns sel : String) (X : List Pod) :
    deleteRequests (r.run (modelCluster labelMatch) ns sel X).2
      = selectedKeys labelMatch ns sel [r] X := by
  rw [deleteRequests_run, selectedKeys_single]
  rfl

theorem model_run_deleted (r : Rule) (ns sel : String) (X : List Pod) (k : String × String) :
    k ∈ deleted (r.run (modelCluster labelMatch) ns sel X).2
      ↔ k ∈ selectedKeys labelMatch ns sel [r] X := by
  have h := congrArg Prod.snd (run_api r (modelCluster labelMatch) ns sel X)
  simp only at h
  rw [← deleted_apiCalls, h, selectedKeys_single]
  simp only [Rule.api, modelCluster]
  have hcons : ∀ t : List Event, deleted (Event.list ns sel none :: t) = deleted t := fun t => rfl
  rw [hcons]
  have := model_mem_deleted_deleteEach labelMatch
    ((X.filter (inScope labelMatch ns sel)).filter r.pred) X k
  simp only [modelCluster] at this
  rw [this]
  constructor
  · exact fun h => h.1
  · intro hk
    refine ⟨hk, ?_⟩
    simp only [List.mem_map, List.mem_filter] at hk ⊢
    obtain ⟨q, ⟨⟨hq, _⟩, _⟩, rfl⟩ := hk
    exact ⟨q, hq, rfl⟩

theorem mem_selectedKeys_cons (ns sel : String) (r : Rule) (order : List Rule) (X : List Pod)
    (k : String × String) :
    k ∈ selectedKeys labelMatch ns sel (r :: order) X
      ↔ k ∈ selectedKeys labelMatch ns sel [r] X
        ∨ k ∈ selectedKeys labelMatch ns sel order
            (X.filter (fun p => decide (p.key ∉ selectedKeys labelMatch ns sel [r] X))) := by
  constructor
  · intro h
    obtain ⟨q, hq, hs, ⟨r0, hr0, hp⟩, hk⟩ := (mem_selectedKeys labelMatch ns sel _ X k).1 h
    by_cases hin : k ∈ selectedKeys labelMatch ns sel [r] X
    · exact Or.inl hin
    · right
      rw [mem_selectedKeys]
      rcases List.mem_cons.1 hr0 with rfl | hr0
      · exact absurd ((mem_selectedKeys labelMatch ns sel _ X k).2
          ⟨q, hq, hs, ⟨r0, List.mem_singleton.2 rfl, hp⟩, hk⟩) hin
      · refine ⟨q, ?_, hs, ⟨r0, hr0, hp⟩, hk⟩
        rw [List.mem_filter]
        exact ⟨hq, by simpa [hk] using hin⟩
  · rintro (h | h)
    · obtain ⟨q, hq, hs, ⟨r0, hr0, hp⟩, hk⟩ := (mem_selectedKeys labelMatch ns sel _ X k).1 h
      rw [List.mem_singleton] at hr0
      subst hr0
      exact (mem_selectedKeys labelMatch ns sel _ X k).2
        ⟨q, hq, hs, ⟨r0, List.mem_cons_self _ _, hp⟩, hk⟩
    · obtain ⟨q, hq, hs, ⟨r0, hr0, hp⟩, hk⟩ := (mem_selectedKeys labelMatch ns sel _ _ k).1 h
      exact (mem_selectedKeys labelMatch ns sel _ X k).2
        ⟨q, (List.mem_filter.1 hq).1, hs, ⟨r0, List.mem_cons_of_mem _ hr0, hp⟩, hk⟩

theorem model_runRules_state (ns sel : String) (order : List Rule) (X : List Pod) :
    (runRules (modelCluster labelMatch) ns sel order X).1
      = X.filter (fun p => decide (p.key ∉ selectedKeys labelMatch ns sel order X)) := by
  induction order generalizing X with
  | nil => simp [runRules, selectedKeys]
  | cons r order ih =>
    simp only [runRules]
    rw [ih, model_run_state, List.filter_filter]
    apply List.filter_congr
    intro p _
    have := mem_selectedKeys_cons labelMatch ns sel r order X p.key
    by_cases h1 : p.key ∈ selectedKeys labelMatch ns sel [r] X <;>
      by_cases h2 : p.key ∈ selectedKeys labelMatch ns sel order
        (X.filter (fun p => decide (p.key ∉ selectedKeys labelMatch ns sel [r] X))) <;>
      simp_all

theorem model_runRules_deleted (ns sel : String) (order : List Rule) (X : List Pod)
    (k : String × String) :
    k ∈ deleted (runRules (modelCluster labelMatch) ns sel order X).2
      ↔ k ∈ selectedKeys labelMatch ns sel order X := by
  induction order generalizing X with
  | nil => simp [runRules, selectedKeys, deleted]
  | cons r order ih =>
    simp only [runRules]
    rw [deleted_append, List.mem_append, model_run_deleted, ih, model_run_state]
    exact (mem_selectedKeys_cons labelMatch ns sel r order X k).symm

theorem model_runRules_requests_nil (ns sel : String) (order : List Rule) (X : List Pod)
    (hclean : selectedKeys labelMatch ns sel order X = []) :
    deleteRequests (runRules (modelCluster labelMatch) ns sel order X).2 = []
      ∧ (runRules (modelCluster labelMatch) ns sel order X).1 = X := by
  induction order generalizing X with
  | nil => simp [runRules, deleteRequests]
  | cons r order ih =>
    have h1 : selectedKeys labelMatch ns sel [r] X = [] := by
      apply List.eq_nil_iff_forall_not_mem.2
      intro k hk
      have := (mem_selectedKeys_cons labelMatch ns sel r order X k).2 (Or.inl hk)
      rw [hclean] at this
      cases this
    have hst : (r.run (modelCluster labelMatch) ns sel X).1 = X := by
      rw [model_run_state, h1]
      simp
    have h2 : selectedKeys labelMatch ns sel order X = [] := by
      apply List.eq_nil_iff_forall_not_mem.2
      intro k hk
      have hk2 : k ∈ selectedKeys labelMatch ns sel order
          (X.filter (fun p => decide (p.key ∉ selectedKeys labelMatch ns sel [r] X))) := by
        rw [h1]
        simpa using hk
      have := (mem_selectedKeys_cons labelMatch ns sel r order X k).2 (Or.inr hk2)
      rw [hclean] at this
      cases this
    simp only [runRules, deleteRequests_append, hst, model_run_requests, h1, List.nil_append]
    exact ih X h2

end Model

/-! ## The rules on the scripted clientset -/

section Scripted

variable (lists : Nat → Except Err (List Pod)) (dels : Nat → Option Err)

theorem scripted_deleteEach_fst (L : List Pod) (s : Nat × Nat) :
    (deleteEach (scriptedClient lists dels) L s).1.1 = s.1 := by
  induction L generalizing s with
  | nil => rfl
  | cons p L ih =>
    simp only [deleteEach]
    rw [ih]
    rfl

theorem scripted_run_fst (r : Rule) (ns sel : String) (s : Nat × Nat) :
    (r.run (scriptedClient lists dels) ns sel s).1.1 = s.1 + 1 := by
  have h := congrArg Prod.fst (run_api r (scriptedClient lists dels) ns sel s)
  simp only at h
  rw [h]
  simp only [Rule.api]
  rcases hl : (scriptedClient lists dels).PodsList ns sel s with ⟨_ | S, s1⟩
  · have : s1 = (s.1 + 1, s.2) := (congrArg Prod.snd hl).symm
    simp [this]
  · have : s1 = (s.1 + 1, s.2) := (congrArg Prod.snd hl).symm
    simp only [scripted_deleteEach_fst, this]

theorem scripted_run_requests (r : Rule) (ns sel : String) (s : Nat × Nat) :
    deleteRequests (r.run (scriptedClient lists dels) ns sel s).2 = r.expected (lists s.1) := by
  rw [deleteRequests_run]
  rfl

theorem scripted_pass_requests (ns sel : String) (s : Nat × Nat) :
    deleteRequests (cleanupPass (scriptedClient lists dels) ns sel s).2
      = Rule.evicted.expected (lists s.1) ++ Rule.crashLoop.expected (lists (s.1 + 1))
        ++ Rule.imagePull.expected (lists (s.1 + 2)) ++ Rule.failed.expected (lists (s.1 + 3)) := by
  have h1 := fun s0 => scripted_run_requests lists dels Rule.evicted ns sel s0
  have h2 := fun s0 => scripted_run_requests lists dels Rule.crashLoop ns sel s0
  have h3 := fun s0 => scripted_run_requests lists dels Rule.imagePull ns sel s0
  have h4 := fun s0 => scripted_run_requests lists dels Rule.failed ns sel s0
  have f1 := fun s0 => scripted_run_fst lists dels Rule.evicted ns sel s0
  have f2 := fun s0 => scripted_run_fst lists dels Rule.crashLoop ns sel s0
  have f3 := fun s0 => scripted_run_fst lists dels Rule.imagePull ns sel s0
  simp only [Rule.run] at h1 h2 h3 h4 f1 f2 f3
  rw [deleteRequests_cleanupPass, h1, h2, h3, h4, f3, f2, f1]

end Scripted

/-! ## Auxiliary facts about the predicates -/

theorem pred_of_no_match (p : Pod) (hphase : p.Status.Phase ≠ "Failed")
    (hcl : hasWaitingReason "CrashLoopBackOff" p = false)
    (hip : hasWaitingReason "ImagePullBackOff" p = false) (r : Rule) : r.pred p = false := by
  cases r <;> simp [Rule.pred, hphase, hcl, hip]

theorem count_beq_eq (a : String × String) (l : List (String × String)) :
    l.count a = @List.count _ instBEqOfDecidableEq a l := by
  simp only [List.count]
  apply List.countP_congr
  intro x _
  simp only [beq_iff_eq]
  exact ⟨fun h => decide_eq_true h, fun h => of_decide_eq_true h⟩

theorem count_key_filter (S : List Pod) (pred : Pod → Bool) (huniq : uniqueNames S)
    (p : Pod) (hp : p ∈ S) :
    ((S.filter pred).map Pod.key).count p.key = if pred p then 1 else 0 := by
  have hnd : ((S.filter pred).map Pod.key).Nodup :=
    List.Nodup.sublist ((List.filter_sublist S).map Pod.key) huniq
  by_cases h : pred p = true
  · rw [if_pos h, count_beq_eq]
    exact List.count_eq_one_of_mem hnd
      (List.mem_map.2 ⟨p, List.mem_filter.2 ⟨hp, h⟩, rfl⟩)
  · rw [if_neg h]
    apply List.count_eq_zero_of_not_mem
    intro hmem
    obtain ⟨q, hq, hk⟩ := List.mem_map.1 hmem
    have hq2 := List.mem_filter.1 hq
    have : q = p := List.inj_on_of_nodup_map huniq hq2.1 hp hk
    exact h (this ▸ hq2.2)

theorem selectedKeys_perm (labelMatch : String → List (String × String) → Bool)
    (ns sel : String) (order order2 : List Rule) (hperm : order.Perm order2) (X : List Pod) :
    selectedKeys labelMatch ns sel order X = selectedKeys labelMatch ns sel order2 X := by
  unfold selectedKeys
  congr 1
  apply List.filter_congr
  intro p _
  congr 1
  rw [Bool.eq_iff_iff]
  simp only [List.any_eq_true]
  constructor
  · rintro ⟨r, hr, h⟩
    exact ⟨r, hperm.mem_iff.1 hr, h⟩
  · rintro ⟨r, hr, h⟩
    exact ⟨r, hperm.mem_iff.2 hr, h⟩

theorem mem_mainOrder (r : Rule) : r ∈ mainOrder := by
  cases r <;> simp [mainOrder]

theorem selectedKeys_after_pass (labelMatch : String → List (String × String) → Bool)
    (ns sel : String) (order : List Rule) (X : List Pod) :
    selectedKeys labelMatch ns sel order
      (X.filter (fun p => decide (p.key ∉ selectedKeys labelMatch ns sel order X))) = [] := by
  apply List.eq_nil_iff_forall_not_mem.2
  intro k hk
  obtain ⟨q, hq, hs, hr, hkey⟩ := (mem_selectedKeys labelMatch ns sel order _ k).1 hk
  have hq2 := List.mem_filter.1 hq
  have hnot : q.key ∉ selectedKeys labelMatch ns sel order X := by simpa using hq2.2
  exact hnot ((mem_selectedKeys labelMatch ns sel order X q.key).2 ⟨q, hq2.1, hs, hr, rfl⟩)

theorem runRules_api {σ : Type} (c : Clientset σ) (ns sel : String) (order : List Rule)
    (s : σ) :
    ((runRules c ns sel order s).1, apiCalls (runRules c ns sel order s).2)
      = apiRules c ns sel order s := by
  induction order generalizing s with
  | nil => rfl
  | cons r order ih =>
    have h := run_api r c ns sel s
    have h1 := congrArg Prod.fst h
    have h2 := congrArg Prod.snd h
    simp only at h1 h2
    simp only [runRules, apiRules, apiCalls_append]
    rw [h1, h2, ← ih]

theorem cleanupPass_api {σ : Type} (c : Clientset σ) (ns sel : String) (s : σ) :
    ((cleanupPass c ns sel s).1, apiCalls (cleanupPass c ns sel s).2)
      = apiRules c ns sel mainOrder s := by
  rw [cleanupPass_eq_runRules, runRules_api]

theorem run_api_ok {σ : Type} (r : Rule) (c : Clientset σ) (ns sel : String) (s s1 : σ)
    (S : List Pod) (hlist : c.PodsList ns sel s = (Except.ok S, s1)) :
    (r.run c ns sel s).1 = (deleteEach c (S.filter r.pred) s1).1
      ∧ apiCalls (r.run c ns sel s).2
          = Event.list ns sel none :: (deleteEach c (S.filter r.pred) s1).2 := by
  have h := run_api r c ns sel s
  simp only [Rule.api, hlist] at h
  exact ⟨(Prod.mk.inj h).1, (Prod.mk.inj h).2⟩

theorem run_api_error {σ : Type} (r : Rule) (c : Clientset σ) (ns sel : String) (s s1 : σ)
    (e : Err) (hlist : c.PodsList ns sel s = (Except.error e, s1)) :
    (r.run c ns sel s).1 = s1
      ∧ apiCalls (r.run c ns sel s).2 = [Event.list ns sel (some e)] := by
  have h := run_api r c ns sel s
  simp only [Rule.api, hlist] at h
  exact ⟨(Prod.mk.inj h).1, (Prod.mk.inj h).2⟩

theorem scripted_deleteEach (lists : Nat → Except Err (List Pod)) (dels : Nat → Option Err)
    (L : List Pod) (s : Nat × Nat) :
    deleteEach (scriptedClient lists dels) L s
      = ((s.1, s.2 + L.length), scriptedDeletes dels L s.2) := by
  induction L generalizing s with
  | nil => rfl
  | cons p L ih =>
    simp only [deleteEach, scriptedDeletes, List.length_cons]
    rw [ih]
    simp only [scriptedClient, Prod.mk.injEq, List.cons.injEq, and_true, true_and]
    omega

theorem scripted_run_ok (lists : Nat → Except Err (List Pod)) (dels : Nat → Option Err)
    (r : Rule) (ns sel : String) (i j : Nat) (S : List Pod) (hl : lists i = Except.ok S) :
    (r.run (scriptedClient lists dels) ns sel (i, j)).1 = (i + 1, j + (S.filter r.pred).length)
      ∧ apiCalls (r.run (scriptedClient lists dels) ns sel (i, j)).2
          = Event.list ns sel none :: scriptedDeletes dels (S.filter r.pred) j := by
  have hlist : (scriptedClient lists dels).PodsList ns sel (i, j) = (Except.ok S, (i + 1, j)) := by
    simp only [scriptedClient, hl]
  have h := run_api_ok r (scriptedClient lists dels) ns sel (i, j) (i + 1, j) S hlist
  rw [scripted_deleteEach] at h
  exact h

theorem scripted_run_error (lists : Nat → Except Err (List Pod)) (dels : Nat → Option Err)
    (r : Rule) (ns sel : String) (i j : Nat) (e : Err) (hl : lists i = Except.error e) :
    (r.run (scriptedClient lists dels) ns sel (i, j)).1 = (i + 1, j)
      ∧ apiCalls (r.run (scriptedClient lists dels) ns sel (i, j)).2
          = [Event.list ns sel (some e)] := by
  have hlist : (scriptedClient lists dels).PodsList ns sel (i, j)
      = (Except.error e, (i + 1, j)) := by
    simp only [scriptedClient, hl]
  exact run_api_error r (scriptedClient lists dels) ns sel (i, j) (i + 1, j) e hlist

theorem scripted_run_state (lists : Nat → Except Err (List Pod)) (dels : Nat → Option Err)
    (r : Rule) (ns sel : String) (s : Nat × Nat) :
    (r.run (scriptedClient lists dels) ns sel s).1
      = (s.1 + 1, s.2 + (r.expected (lists s.1)).length) := by
  obtain ⟨i, j⟩ := s
  rcases hl : lists i with e | S
  · simpa [Rule.expected] using (scripted_run_error lists dels r ns sel i j e hl).1
  · simpa [Rule.expected] using (scripted_run_ok lists dels r ns sel i j S hl).1

theorem scripted_pass_state (lists : Nat → Except Err (List Pod)) (dels : Nat → Option Err)
    (ns sel : String) (i j : Nat) :
    (cleanupPass (scriptedClient lists dels) ns sel (i, j)).1
      = (i + 4, j + (Rule.evicted.expected (lists i) ++ Rule.crashLoop.expected (lists (i + 1))
          ++ Rule.imagePull.expected (lists (i + 2))
          ++ Rule.failed.expected (lists (i + 3))).length) := by
  have f1 := fun s0 => scripted_run_state lists dels Rule.evicted ns sel s0
  have f2 := fun s0 => scripted_run_state lists dels Rule.crashLoop ns sel s0
  have f3 := fun s0 => scripted_run_state lists dels Rule.imagePull ns sel s0
  have f4 := fun s0 => scripted_run_state lists dels Rule.failed ns sel s0
  simp only [Rule.run] at f1 f2 f3 f4
  simp only [cleanupPass, f1, f2, f3, f4, List.length_append, Prod.mk.injEq, Nat.add_assoc,
    Nat.reduceAdd, and_self]

/-! ## The claims -/

/-- C1, as stated, fails: the pod `a/p4` has phase "Failed" and reason "Evicted", and the
CrashLoopBackOff rule selects it too, because two of its containers are waiting with reason
"CrashLoopBackOff". -/
theorem C1_counterexample :
    ¬ (podP4.Status.Phase = "Failed" → podP4.Status.Reason = "Evicted" →
        Rule.evicted.selects podP4 ∧ ¬ Rule.crashLoop.selects podP4
          ∧ ¬ Rule.imagePull.selects podP4 ∧ ¬ Rule.failed.selects podP4) := by
  intro h
  have h2 := (h (by decide) (by decide)).2.1
  apply h2
  unfold Rule.selects
  decide

/-- C1, amended: for every pod with phase "Failed" and reason "Evicted", whatever its
container statuses, `cleanupEvictedPods` selects the pod and `cleanupFailedPods` does not;
`cleanupCrashLoopBackOffPods` (respectively `cleanupImagePullErrorPods`) selects it exactly
when one of its container statuses is waiting with reason "CrashLoopBackOff" (respectively
"ImagePullBackOff"), and requests nothing for it otherwise. -/
theorem C1_evicted_pod (p : Pod) (hphase : p.Status.Phase = "Failed")
    (hreason : p.Status.Reason = "Evicted") :
    Rule.evicted.selects p
      ∧ Rule.failed.skips p ∧ ¬ Rule.failed.selects p
      ∧ (Rule.crashLoop.selects p ↔ hasWaitingReason "CrashLoopBackOff" p = true)
      ∧ (Rule.crashLoop.skips p ↔ hasWaitingReason "CrashLoopBackOff" p = false)
      ∧ (Rule.imagePull.selects p ↔ hasWaitingReason "ImagePullBackOff" p = true)
      ∧ (Rule.imagePull.skips p ↔ hasWaitingReason "ImagePullBackOff" p = false) := by
  refine ⟨?_, ?_, ?_, ?_, ?_, ?_, ?_⟩
  · rw [selects_iff]; simp [Rule.pred, hphase, hreason]
  · rw [skips_iff]; simp [Rule.pred, hphase, hreason]
  · rw [selects_iff]; simp [Rule.pred, hphase, hreason]
  · rw [selects_iff]; rfl
  · rw [skips_iff]; rfl
  · rw [selects_iff]; rfl
  · rw [skips_iff]; rfl

/-- C1, amended, at the pod `a/p1` (Failed, Evicted, no container status): only the
Evicted rule selects it. -/
theorem C1_evicted_pod_witness :
    podP1.Status.Phase = "Failed" ∧ podP1.Status.Reason = "Evicted"
      ∧ Rule.evicted.selects podP1 ∧ Rule.failed.skips podP1
      ∧ Rule.crashLoop.skips podP1 ∧ Rule.imagePull.skips podP1 :=
  ⟨by decide, by decide,
    (C1_evicted_pod podP1 (by decide) (by decide)).1,
    (C1_evicted_pod podP1 (by decide) (by decide)).2.1,
    (C1_evicted_pod podP1 (by decide) (by decide)).2.2.2.2.1.2 (by decide),
    (C1_evicted_pod podP1 (by decide) (by decide)).2.2.2.2.2.2.2 (by decide)⟩

/-- C2: for every pod with phase "Failed" and a reason other than "Evicted" (the empty
reason included), `cleanupFailedPods` selects the pod and `cleanupEvictedPods` does not;
for every pod at most one of the two rules selects it, and one of them selects it exactly
when its phase is "Failed". -/
theorem C2_failed_partition (p : Pod) :
    (p.Status.Phase = "Failed" → p.Status.Reason ≠ "Evicted" →
        Rule.failed.selects p ∧ Rule.evicted.skips p ∧ ¬ Rule.evicted.selects p)
      ∧ ¬ (Rule.evicted.selects p ∧ Rule.failed.selects p)
      ∧ ((Rule.evicted.selects p ∨ Rule.failed.selects p) ↔ p.Status.Phase = "Failed") := by
  simp only [selects_iff, skips_iff, Rule.pred, decide_eq_true_eq, decide_eq_false_iff_not]
  refine ⟨?_, ?_, ?_⟩
  · intro h1 h2
    exact ⟨⟨h1, h2⟩, fun h => h2 h.2, fun h => h2 h.2⟩
  · rintro ⟨⟨_, h1⟩, ⟨_, h2⟩⟩
    exact h2 h1
  · constructor
    · rintro (h | h) <;> exact h.1
    · intro h
      by_cases hr : p.Status.Reason = "Evicted"
      · exact Or.inl ⟨h, hr⟩
      · exact Or.inr ⟨h, hr⟩

/-- C2 at the pod `a/p6` (Failed, empty reason): the Failed rule selects it and the
Evicted rule does not. -/
theorem C2_failed_partition_witness :
    podP6.Status.Phase = "Failed" ∧ podP6.Status.Reason ≠ "Evicted"
      ∧ Rule.failed.selects podP6 ∧ Rule.evicted.skips podP6 ∧ ¬ Rule.evicted.selects podP6 :=
  ⟨by decide, by decide, (C2_failed_partition podP6).1 (by decide) (by decide)⟩

/-- C3: when the list call of `cleanupCrashLoopBackOffPods` returns the snapshot `S`, the
function sends the clientset one delete call per pod of `S` that has a container status
waiting with reason "CrashLoopBackOff", in snapshot order, addressed by the pod's namespace
and name, each call made in the state the previous call left, and nothing else, whatever the
clientset answers to the deletes.  With unique names in `S`, the number of requests for a
pod of `S` is 1 when it has such a container status (however many) and 0 when it has none. -/
theorem C3_crashLoop_requests {σ : Type} (c : Clientset σ) (ns sel : String) (s s1 : σ)
    (S : List Pod) (hlist : c.PodsList ns sel s = (Except.ok S, s1)) :
    deleteRequests (cleanupCrashLoopBackOffPods c ns sel s).2
        = (S.filter (hasWaitingReason "CrashLoopBackOff")).map Pod.key
      ∧ (uniqueNames S → ∀ p ∈ S,
          (deleteRequests (cleanupCrashLoopBackOffPods c ns sel s).2).count p.key
            = if hasWaitingReason "CrashLoopBackOff" p then 1 else 0)
      ∧ (cleanupCrashLoopBackOffPods c ns sel s).1
          = (deleteEach c (S.filter (hasWaitingReason "CrashLoopBackOff")) s1).1
      ∧ apiCalls (cleanupCrashLoopBackOffPods c ns sel s).2
          = Event.list ns sel none
              :: (deleteEach c (S.filter (hasWaitingReason "CrashLoopBackOff")) s1).2 := by
  have h := deleteRequests_run Rule.crashLoop c ns sel s
  rw [hlist] at h
  have h2 : deleteRequests (cleanupCrashLoopBackOffPods c ns sel s).2
      = (S.filter (hasWaitingReason "CrashLoopBackOff")).map Pod.key := h
  have h3 := run_api_ok Rule.crashLoop c ns sel s s1 S hlist
  refine ⟨h2, fun huniq p hp => ?_, h3.1, h3.2⟩
  rw [h2]
  exact count_key_filter S _ huniq p hp

/-- C3 on the snapshot `[a/p4, a/p2, a/p3]` with a clientset that fails the first delete
and accepts the second: one delete call for `a/p4` (two matching containers), answered by
the failure, none for `a/p2` (a container that is not waiting), one for `a/p3`, answered by
success; the clientset has received one list call and two delete calls. -/
theorem C3_crashLoop_requests_witness :
    deleteRequests (cleanupCrashLoopBackOffPods
        (scriptedClient (fun _ => Except.ok [podP4, podP2, podP3])
          (fun j => if j = 0 then some "timeout" else none))
        "a" "" (0, 0)).2 = [("a", "p4"), ("a", "p3")]
      ∧ (deleteRequests (cleanupCrashLoopBackOffPods
          (scriptedClient (fun _ => Except.ok [podP4, podP2, podP3])
            (fun j => if j = 0 then some "timeout" else none))
          "a" "" (0, 0)).2).count podP4.key = 1
      ∧ (cleanupCrashLoopBackOffPods
          (scriptedClient (fun _ => Except.ok [podP4, podP2, podP3])
            (fun j => if j = 0 then some "timeout" else none))
          "a" "" (0, 0)).1 = (1, 2)
      ∧ apiCalls (cleanupCrashLoopBackOffPods
          (scriptedClient (fun _ => Except.ok [podP4, podP2, podP3])
            (fun j => if j = 0 then some "timeout" else none))
          "a" "" (0, 0)).2
          = [Event.list "a" "" none, Event.delete "a" "p4" (some "timeout"),
             Event.delete "a" "p3" none] :=
  ⟨(C3_crashLoop_requests
      (scriptedClient (fun _ => Except.ok [podP4, podP2, podP3])
        (fun j => if j = 0 then some "timeout" else none))
      "a" "" (0, 0) (1, 0) [podP4, podP2, podP3] rfl).1,
    (C3_crashLoop_requests
      (scriptedClient (fun _ => Except.ok [podP4, podP2, podP3])
        (fun j => if j = 0 then some "timeout" else none))
      "a" "" (0, 0) (1, 0) [podP4, podP2, podP3] rfl).2.1 (by unfold uniqueNames; decide)
      podP4 (by decide),
    (C3_crashLoop_requests
      (scriptedClient (fun _ => Except.ok [podP4, podP2, podP3])
        (fun j => if j = 0 then some "timeout" else none))
      "a" "" (0, 0) (1, 0) [podP4, podP2, podP3] rfl).2.2.1.trans (by decide),
    (C3_crashLoop_requests
      (scriptedClient (fun _ => Except.ok [podP4, podP2, podP3])
        (fun j => if j = 0 then some "timeout" else none))
      "a" "" (0, 0) (1, 0) [podP4, podP2, podP3] rfl).2.2.2.trans (by decide)⟩

/-- C4: when the list call of `cleanupImagePullErrorPods` returns the snapshot `S`, the
function sends the clientset one delete call per pod of `S` that has a container status
waiting with reason "ImagePullBackOff", in snapshot order, addressed by the pod's namespace
and name, each call made in the state the previous call left, and nothing else, whatever the
clientset answers to the deletes.  With unique names in `S`, the number of requests for a
pod of `S` is 1 when it has such a container status (however many) and 0 when it has none. -/
theorem C4_imagePull_requests {σ : Type} (c : Clientset σ) (ns sel : String) (s s1 : σ)
    (S : List Pod) (hlist : c.PodsList ns sel s = (Except.ok S, s1)) :
    deleteRequests (cleanupImagePullErrorPods c ns sel s).2
        = (S.filter (hasWaitingReason "ImagePullBackOff")).map Pod.key
      ∧ (uniqueNames S → ∀ p ∈ S,
          (deleteRequests (cleanupImagePullErrorPods c ns sel s).2).count p.key
            = if hasWaitingReason "ImagePullBackOff" p then 1 else 0)
      ∧ (cleanupImagePullErrorPods c ns sel s).1
          = (deleteEach c (S.filter (hasWaitingReason "ImagePullBackOff")) s1).1
      ∧ apiCalls (cleanupImagePullErrorPods c ns sel s).2
          = Event.list ns sel none
              :: (deleteEach c (S.filter (hasWaitingReason "ImagePullBackOff")) s1).2 := by
  have h := deleteRequests_run Rule.imagePull c ns sel s
  rw [hlist] at h
  have h2 : deleteRequests (cleanupImagePullErrorPods c ns sel s).2
      = (S.filter (hasWaitingReason "ImagePullBackOff")).map Pod.key := h
  have h3 := run_api_ok Rule.imagePull c ns sel s s1 S hlist
  refine ⟨h2, fun huniq p hp => ?_, h3.1, h3.2⟩
  rw [h2]
  exact count_key_filter S _ huniq p hp

/-- C4 on the model cluster holding `[b/p5, a/p3, b/p7]`: one delete call for `b/p5` and
one for `b/p7` (three matching containers), both accepted, none for `a/p3`, and the cluster
is left with `a/p3` alone. -/
theorem C4_imagePull_requests_witness :
    deleteRequests (cleanupImagePullErrorPods (modelCluster (fun _ _ => true))
        "" "" [podP5, podP3, podP7]).2 = [("b", "p5"), ("b", "p7")]
      ∧ (deleteRequests (cleanupImagePullErrorPods (modelCluster (fun _ _ => true))
          "" "" [podP5, podP3, podP7]).2).count podP7.key = 1
      ∧ (cleanupImagePullErrorPods (modelCluster (fun _ _ => true))
          "" "" [podP5, podP3, podP7]).1 = [podP3]
      ∧ apiCalls (cleanupImagePullErrorPods (modelCluster (fun _ _ => true))
          "" "" [podP5, podP3, podP7]).2
          = [Event.list "" "" none, Event.delete "b" "p5" none, Event.delete "b" "p7" none] :=
  ⟨(C4_imagePull_requests (modelCluster (fun _ _ => true))
      "" "" [podP5, podP3, podP7] [podP5, podP3, podP7] [podP5, podP3, podP7] rfl).1,
    (C4_imagePull_requests (modelCluster (fun _ _ => true))
      "" "" [podP5, podP3, podP7] [podP5, podP3, podP7] [podP5, podP3, podP7] rfl).2.1
      (by unfold uniqueNames; decide) podP7 (by decide),
    (C4_imagePull_requests (modelCluster (fun _ _ => true))
      "" "" [podP5, podP3, podP7] [podP5, podP3, podP7] [podP5, podP3, podP7] rfl).2.2.1.trans
      (by decide),
    (C4_imagePull_requests (modelCluster (fun _ _ => true))
      "" "" [podP5, podP3, podP7] [podP5, podP3, podP7] [podP5, podP3, podP7] rfl).2.2.2.trans
      (by decide)⟩

/-- C5: when every snapshot the list calls return holds only pods whose phase is not
"Failed" and that have no container status waiting with reason "CrashLoopBackOff" or
"ImagePullBackOff", a full cleanup pass issues no delete request. -/
theorem C5_no_match_no_delete {σ : Type} (c : Clientset σ) (ns sel : String) (s : σ)
    (hclean : ∀ (s0 s1 : σ) (S : List Pod), c.PodsList ns sel s0 = (Except.ok S, s1) →
      ∀ p ∈ S, p.Status.Phase ≠ "Failed" ∧ hasWaitingReason "CrashLoopBackOff" p = false
        ∧ hasWaitingReason "ImagePullBackOff" p = false) :
    deleteRequests (cleanupPass c ns sel s).2 = [] := by
  have key : ∀ (r : Rule) (s0 : σ), deleteRequests (r.run c ns sel s0).2 = [] := by
    intro r s0
    rw [deleteRequests_run]
    rcases hl : c.PodsList ns sel s0 with ⟨_ | S, s1⟩
    · rfl
    · simp only [Rule.expected, List.map_eq_nil_iff, List.filter_eq_nil_iff]
      intro p hp
      have := hclean s0 s1 S hl p hp
      simp [pred_of_no_match p this.1 this.2.1 this.2.2 r]
  rw [deleteRequests_cleanupPass]
  have h1 := key Rule.evicted
  have h2 := key Rule.crashLoop
  have h3 := key Rule.imagePull
  have h4 := key Rule.failed
  simp only [Rule.run] at h1 h2 h3 h4
  simp [h1, h2, h3, h4]

/-- C5 on a cluster of Running pods only. -/
theorem C5_no_match_no_delete_witness :
    deleteRequests (cleanupPass (scriptedClient (fun _ => Except.ok [podP2, podP8]) (fun _ => none))
      "" "" (0, 0)).2 = [] :=
  C5_no_match_no_delete (scriptedClient (fun _ => Except.ok [podP2, podP8]) (fun _ => none))
    "" "" (0, 0) (by
      intro s0 s1 S h p hp
      have hS : S = [podP2, podP8] := by
        have := congrArg Prod.fst h
        simp only [scriptedClient] at this
        exact (Except.ok.inj this).symm
      subst hS
      simp only [List.mem_cons, List.mem_singleton, List.not_mem_nil, or_false] at hp
      rcases hp with rfl | rfl <;> decide)

/-- C6: when every list call with the given namespace and label selector returns the
snapshot `S`, the delete requests of one pass are the pods of `S` matching the Evicted
predicate, then those matching the CrashLoopBackOff predicate, then those matching the
ImagePullBackOff predicate, then those matching the Failed predicate, each group in snapshot
order and each request addressed by the pod's own namespace and name; the pass makes four
list calls, one per rule, all with the given namespace and label selector.  Every one of
these calls is sent to the clientset, in the state the previous call left: the final state
and the API calls of the pass, with the answers received, are those of the four rules'
reference behaviour run in the order of `main`, and each rule sends its list call and then
one delete call per matching pod of `S`.  On the snapshot `[a/p1, a/p2, a/p3]` the requests
are `a/p1` then `a/p3`. -/
theorem C6_pass_requests {σ : Type} (c : Clientset σ) (ns sel : String) (S : List Pod)
    (hlist : ∀ s0 : σ, (c.PodsList ns sel s0).1 = Except.ok S) (s : σ) :
    deleteRequests (cleanupPass c ns sel s).2
        = (S.filter Rule.evicted.pred).map Pod.key
          ++ (S.filter Rule.crashLoop.pred).map Pod.key
          ++ (S.filter Rule.imagePull.pred).map Pod.key
          ++ (S.filter Rule.failed.pred).map Pod.key
      ∧ listCalls (cleanupPass c ns sel s).2 = [(ns, sel), (ns, sel), (ns, sel), (ns, sel)]
      ∧ (∀ (r : Rule) (s0 : σ), listCalls (r.run c ns sel s0).2 = [(ns, sel)])
      ∧ (S = [podP1, podP2, podP3] →
          deleteRequests (cleanupPass c ns sel s).2 = [("a", "p1"), ("a", "p3")])
      ∧ ((cleanupPass c ns sel s).1, apiCalls (cleanupPass c ns sel s).2)
          = apiRules c ns sel mainOrder s
      ∧ (∀ (r : Rule) (s0 : σ),
          (r.run c ns sel s0).1
              = (deleteEach c (S.filter r.pred) (c.PodsList ns sel s0).2).1
            ∧ apiCalls (r.run c ns sel s0).2
              = Event.list ns sel none
                  :: (deleteEach c (S.filter r.pred) (c.PodsList ns sel s0).2).2) := by
  have key : ∀ (r : Rule) (s0 : σ),
      deleteRequests (r.run c ns sel s0).2 = (S.filter r.pred).map Pod.key := by
    intro r s0
    rw [deleteRequests_run, hlist]
    rfl
  have h1 := key Rule.evicted
  have h2 := key Rule.crashLoop
  have h3 := key Rule.imagePull
  have h4 := key Rule.failed
  simp only [Rule.run] at h1 h2 h3 h4
  have hreq : deleteRequests (cleanupPass c ns sel s).2
        = (S.filter Rule.evicted.pred).map Pod.key
          ++ (S.filter Rule.crashLoop.pred).map Pod.key
          ++ (S.filter Rule.imagePull.pred).map Pod.key
          ++ (S.filter Rule.failed.pred).map Pod.key := by
    rw [deleteRequests_cleanupPass, h1, h2, h3, h4]
  refine ⟨hreq, listCalls_cleanupPass c ns sel s, fun r s0 => listCalls_run r c ns sel s0, ?_,
    cleanupPass_api c ns sel s, ?_⟩
  · intro hS
    rw [hreq, hS]
    decide
  · intro r s0
    have hl : c.PodsList ns sel s0 = (Except.ok S, (c.PodsList ns sel s0).2) :=
      Prod.ext (hlist s0) rfl
    exact run_api_ok r c ns sel s0 _ S hl

/-- C6 with the scope "all namespaces", the snapshot `[a/p1, a/p2, a/p3, b/p5]` and a
clientset that fails the second delete only: the requests are `a/p1`, `a/p3`, `b/p5` (image
pull) and `b/p5` (failed), after four list calls; the clientset has received four list calls
and four delete calls, and the trace shows each call with its answer. -/
theorem C6_pass_requests_witness :
    deleteRequests (cleanupPass
        (scriptedClient (fun _ => Except.ok [podP1, podP2, podP3, podP5])
          (fun j => if j = 1 then some "gone" else none))
        "" "app=web" (0, 0)).2 = [("a", "p1"), ("a", "p3"), ("b", "p5"), ("b", "p5")]
      ∧ listCalls (cleanupPass
        (scriptedClient (fun _ => Except.ok [podP1, podP2, podP3, podP5])
          (fun j => if j = 1 then some "gone" else none))
        "" "app=web" (0, 0)).2
          = [("", "app=web"), ("", "app=web"), ("", "app=web"), ("", "app=web")]
      ∧ ((cleanupPass
          (scriptedClient (fun _ => Except.ok [podP1, podP2, podP3, podP5])
            (fun j => if j = 1 then some "gone" else none))
          "" "app=web" (0, 0)).1,
         apiCalls (cleanupPass
          (scriptedClient (fun _ => Except.ok [podP1, podP2, podP3, podP5])
            (fun j => if j = 1 then some "gone" else none))
          "" "app=web" (0, 0)).2)
          = ((4, 4),
             [Event.list "" "app=web" none, Event.delete "a" "p1" none,
              Event.list "" "app=web" none, Event.delete "a" "p3" (some "gone"),
              Event.list "" "app=web" none, Event.delete "b" "p5" none,
              Event.list "" "app=web" none, Event.delete "b" "p5" none]) :=
  ⟨(C6_pass_requests
      (scriptedClient (fun _ => Except.ok [podP1, podP2, podP3, podP5])
        (fun j => if j = 1 then some "gone" else none))
      "" "app=web" [podP1, podP2, podP3, podP5] (fun _ => rfl) (0, 0)).1,
    (C6_pass_requests
      (scriptedClient (fun _ => Except.ok [podP1, podP2, podP3, podP5])
        (fun j => if j = 1 then some "gone" else none))
      "" "app=web" [podP1, podP2, podP3, podP5] (fun _ => rfl) (0, 0)).2.1,
    (C6_pass_requests
      (scriptedClient (fun _ => Except.ok [podP1, podP2, podP3, podP5])
        (fun j => if j = 1 then some "gone" else none))
      "" "app=web" [podP1, podP2, podP3, podP5] (fun _ => rfl) (0, 0)).2.2.2.2.1.trans
      (by decide)⟩

/-- C7: for every rule and every snapshot `S` returned by its list call, the rule sends the
clientset one delete call per matching pod of `S`, in order, each in the state the previous
call left, whatever the clientset answers: with the scripted clientset, the `k`-th matching
pod is requested and receives the answer `dels (j + k)`, failure or success, and the rule
goes on to the next matching pod.  So the sequence of delete requests is the same under
every assignment `dels` of success or failure to the delete calls as when every delete
succeeds.  For a whole pass, whatever the list calls return, the delete requests and the
four list calls are the same under every assignment `dels` as when every delete succeeds,
every request is sent to the clientset, and the four rules all run. -/
theorem C7_delete_failures (S : List Pod) (ns sel : String) :
    (∀ {σ : Type} (c : Clientset σ) (r : Rule) (s s1 : σ),
        c.PodsList ns sel s = (Except.ok S, s1) →
        deleteRequests (r.run c ns sel s).2 = (S.filter r.pred).map Pod.key
          ∧ (r.run c ns sel s).1 = (deleteEach c (S.filter r.pred) s1).1
          ∧ apiCalls (r.run c ns sel s).2
              = Event.list ns sel none :: (deleteEach c (S.filter r.pred) s1).2)
      ∧ (∀ (r : Rule) (dels : Nat → Option Err) (s : Nat × Nat),
          deleteRequests (r.run (scriptedClient (fun _ => Except.ok S) dels) ns sel s).2
            = deleteRequests
                (r.run (scriptedClient (fun _ => Except.ok S) (fun _ => none)) ns sel s).2)
      ∧ (∀ (lists : Nat → Except Err (List Pod)) (dels : Nat → Option Err) (s : Nat × Nat),
          deleteRequests (cleanupPass (scriptedClient lists dels) ns sel s).2
              = deleteRequests (cleanupPass (scriptedClient lists (fun _ => none)) ns sel s).2
            ∧ listCalls (cleanupPass (scriptedClient lists dels) ns sel s).2
              = [(ns, sel), (ns, sel), (ns, sel), (ns, sel)])
      ∧ (∀ (r : Rule) (lists : Nat → Except Err (List Pod)) (dels : Nat → Option Err)
          (i j : Nat), lists i = Except.ok S →
          (r.run (scriptedClient lists dels) ns sel (i, j)).1
              = (i + 1, j + (S.filter r.pred).length)
            ∧ apiCalls (r.run (scriptedClient lists dels) ns sel (i, j)).2
              = Event.list ns sel none :: scriptedDeletes dels (S.filter r.pred) j)
      ∧ (∀ (lists : Nat → Except Err (List Pod)) (dels : Nat → Option Err) (i j : Nat),
          (cleanupPass (scriptedClient lists dels) ns sel (i, j)).1
              = (i + 4,
                 j + (deleteRequests
                   (cleanupPass (scriptedClient lists dels) ns sel (i, j)).2).length)
            ∧ ((cleanupPass (scriptedClient lists dels) ns sel (i, j)).1,
                apiCalls (cleanupPass (scriptedClient lists dels) ns sel (i, j)).2)
              = apiRules (scriptedClient lists dels) ns sel mainOrder (i, j)) := by
  refine ⟨?_, ?_, ?_, ?_, ?_⟩
  · intro σ c r s s1 hl
    refine ⟨?_, run_api_ok r c ns sel s s1 S hl⟩
    rw [deleteRequests_run, hl]
    rfl
  · intro r dels s
    rw [scripted_run_requests, scripted_run_requests]
  · intro lists dels s
    refine ⟨?_, listCalls_cleanupPass _ ns sel s⟩
    rw [scripted_pass_requests, scripted_pass_requests]
  · intro r lists dels i j hl
    exact scripted_run_ok lists dels r ns sel i j S hl
  · intro lists dels i j
    refine ⟨?_, cleanupPass_api _ ns sel (i, j)⟩
    rw [scripted_pass_requests, scripted_pass_state]

/-- C7 on the snapshot `[a/p1, a/p4, a/p6]` with the Evicted rule and every delete failing:
`a/p1` is requested and refused, then `a/p4` is requested and refused; the clientset has
received both delete calls and no delete has succeeded. -/
theorem C7_delete_failures_witness :
    deleteRequests (Rule.evicted.run
        (scriptedClient (fun _ => Except.ok [podP1, podP4, podP6]) (fun _ => some "forbidden"))
        "a" "" (0, 0)).2 = [("a", "p1"), ("a", "p4")]
      ∧ (Rule.evicted.run
        (scriptedClient (fun _ => Except.ok [podP1, podP4, podP6]) (fun _ => some "forbidden"))
        "a" "" (0, 0)).1 = (1, 2)
      ∧ apiCalls (Rule.evicted.run
        (scriptedClient (fun _ => Except.ok [podP1, podP4, podP6]) (fun _ => some "forbidden"))
        "a" "" (0, 0)).2
          = [Event.list "a" "" none, Event.delete "a" "p1" (some "forbidden"),
             Event.delete "a" "p4" (some "forbidden")] :=
  ⟨((C7_delete_failures [podP1, podP4, podP6] "a" "").1
      (scriptedClient (fun _ => Except.ok [podP1, podP4, podP6]) (fun _ => some "forbidden"))
      Rule.evicted (0, 0) (1, 0) rfl).1,
    ((C7_delete_failures [podP1, podP4, podP6] "a" "").1
      (scriptedClient (fun _ => Except.ok [podP1, podP4, podP6]) (fun _ => some "forbidden"))
      Rule.evicted (0, 0) (1, 0) rfl).2.1.trans (by decide),
    ((C7_delete_failures [podP1, podP4, podP6] "a" "").1
      (scriptedClient (fun _ => Except.ok [podP1, podP4, podP6]) (fun _ => some "forbidden"))
      Rule.evicted (0, 0) (1, 0) rfl).2.2.trans (by decide)⟩

/-- C8: when the list call of a rule fails, the only API call of the rule is that one list
call (no delete request, no second list call) and the rule returns normally.  In a pass,
whichever of the four list calls fail (`lists` gives the answer to each of them), four list
calls are made, and each rule whose list call succeeds sends the clientset one delete call
per matching pod of its own snapshot: the final state and the API calls of the pass, with
the answers received, are those of the four rules' reference behaviour run in the order of
`main`, for every clientset. -/
theorem C8_list_failure (ns sel : String) :
    (∀ {σ : Type} (c : Clientset σ) (r : Rule) (s s1 : σ) (e : Err),
        c.PodsList ns sel s = (Except.error e, s1) →
        apiCalls (r.run c ns sel s).2 = [Event.list ns sel (some e)]
          ∧ deleteRequests (r.run c ns sel s).2 = []
          ∧ listCalls (r.run c ns sel s).2 = [(ns, sel)]
          ∧ (r.run c ns sel s).1 = s1)
      ∧ (∀ (lists : Nat → Except Err (List Pod)) (dels : Nat → Option Err) (i j : Nat),
          listCalls (cleanupPass (scriptedClient lists dels) ns sel (i, j)).2
              = [(ns, sel), (ns, sel), (ns, sel), (ns, sel)]
            ∧ deleteRequests (cleanupPass (scriptedClient lists dels) ns sel (i, j)).2
              = Rule.evicted.expected (lists i) ++ Rule.crashLoop.expected (lists (i + 1))
                ++ Rule.imagePull.expected (lists (i + 2))
                ++ Rule.failed.expected (lists (i + 3))
            ∧ (cleanupPass (scriptedClient lists dels) ns sel (i, j)).1
              = (i + 4,
                 j + (Rule.evicted.expected (lists i) ++ Rule.crashLoop.expected (lists (i + 1))
                   ++ Rule.imagePull.expected (lists (i + 2))
                   ++ Rule.failed.expected (lists (i + 3))).length))
      ∧ (∀ {σ : Type} (c : Clientset σ) (s : σ),
          ((cleanupPass c ns sel s).1, apiCalls (cleanupPass c ns sel s).2)
            = apiRules c ns sel mainOrder s)
      ∧ (∀ (r : Rule) (lists : Nat → Except Err (List Pod)) (dels : Nat → Option Err)
          (i j : Nat) (S : List Pod), lists i = Except.ok S →
          (r.run (scriptedClient lists dels) ns sel (i, j)).1
              = (i + 1, j + (S.filter r.pred).length)
            ∧ apiCalls (r.run (scriptedClient lists dels) ns sel (i, j)).2
              = Event.list ns sel none :: scriptedDeletes dels (S.filter r.pred) j)
      ∧ (∀ (r : Rule) (lists : Nat → Except Err (List Pod)) (dels : Nat → Option Err)
          (i j : Nat) (e : Err), lists i = Except.error e →
          (r.run (scriptedClient lists dels) ns sel (i, j)).1 = (i + 1, j)
            ∧ apiCalls (r.run (scriptedClient lists dels) ns sel (i, j)).2
              = [Event.list ns sel (some e)]) := by
  refine ⟨?_, ?_, ?_, ?_, ?_⟩
  · intro σ c r s s1 e hl
    have h := run_api_error r c ns sel s s1 e hl
    refine ⟨h.2, ?_, listCalls_run r c ns sel s, h.1⟩
    rw [deleteRequests_run, hl]
    rfl
  · intro lists dels i j
    exact ⟨listCalls_cleanupPass _ ns sel (i, j), scripted_pass_requests lists dels ns sel (i, j),
      scripted_pass_state lists dels ns sel i j⟩
  · intro σ c s
    exact cleanupPass_api c ns sel s
  · intro r lists dels i j S hl
    exact scripted_run_ok lists dels r ns sel i j S hl
  · intro r lists dels i j e hl
    exact scripted_run_error lists dels r ns sel i j e hl

/-- C8 on a pass whose first and third list calls fail: the CrashLoopBackOff rule and the
Failed rule still make their list calls and send their delete calls; the clientset has
received four list calls and three delete calls. -/
theorem C8_list_failure_witness :
    apiCalls (Rule.crashLoop.run
        (scriptedClient (fun _ => Except.error "timeout") (fun _ => none)) "a" "" (0, 0)).2
        = [Event.list "a" "" (some "timeout")]
      ∧ deleteRequests (cleanupPass
          (scriptedClient
            (fun i => if i % 2 = 0 then Except.error "timeout"
              else Except.ok [podP1, podP3, podP5, podP6])
            (fun _ => none)) "" "" (0, 0)).2 = [("a", "p3"), ("b", "p5"), ("a", "p6")]
      ∧ ((cleanupPass
          (scriptedClient
            (fun i => if i % 2 = 0 then Except.error "timeout"
              else Except.ok [podP1, podP3, podP5, podP6])
            (fun _ => none)) "" "" (0, 0)).1,
         apiCalls (cleanupPass
          (scriptedClient
            (fun i => if i % 2 = 0 then Except.error "timeout"
              else Except.ok [podP1, podP3, podP5, podP6])
            (fun _ => none)) "" "" (0, 0)).2)
          = ((4, 3),
             [Event.list "" "" (some "timeout"),
              Event.list "" "" none, Event.delete "a" "p3" none,
              Event.list "" "" (some "timeout"),
              Event.list "" "" none, Event.delete "b" "p5" none,
              Event.delete "a" "p6" none]) :=
  ⟨((C8_list_failure "a" "").1
      (scriptedClient (fun _ => Except.error "timeout") (fun _ => none))
      Rule.crashLoop (0, 0) (1, 0) "timeout" rfl).1,
    ((C8_list_failure "" "").2.1
      (fun i => if i % 2 = 0 then Except.error "timeout"
        else Except.ok [podP1, podP3, podP5, podP6])
      (fun _ => none) 0 0).2.1,
    ((C8_list_failure "" "").2.2.1
      (scriptedClient
        (fun i => if i % 2 = 0 then Except.error "timeout"
          else Except.ok [podP1, podP3, podP5, podP6])
        (fun _ => none)) (0, 0)).trans (by decide)⟩

/-- C9: on the model cluster, for every initial state, after one full pass no remaining
pod in scope satisfies the predicate of any of the four rules; a second full pass run on
the resulting state issues no delete request and leaves the state as it is, so the state
after two passes is the state after one. -/
theorem C9_pass_idempotent (labelMatch : String → List (String × String) → Bool)
    (ns sel : String) (pods : List Pod) :
    (∀ p ∈ (cleanupPass (modelCluster labelMatch) ns sel pods).1,
        inScope labelMatch ns sel p = true → ∀ r : Rule, r.pred p = false)
      ∧ deleteRequests (cleanupPass (modelCluster labelMatch) ns sel
          (cleanupPass (modelCluster labelMatch) ns sel pods).1).2 = []
      ∧ (cleanupPass (modelCluster labelMatch) ns sel
          (cleanupPass (modelCluster labelMatch) ns sel pods).1).1
        = (cleanupPass (modelCluster labelMatch) ns sel pods).1 := by
  have hclean := selectedKeys_after_pass labelMatch ns sel mainOrder pods
  rw [← model_runRules_state] at hclean
  have h2 := model_runRules_requests_nil labelMatch ns sel mainOrder _ hclean
  simp only [cleanupPass_eq_runRules]
  refine ⟨?_, h2.1, h2.2⟩
  intro p hp hs r
  by_contra hr
  have hmem : p.key ∈ selectedKeys labelMatch ns sel mainOrder
      (runRules (modelCluster labelMatch) ns sel mainOrder pods).1 :=
    (mem_selectedKeys labelMatch ns sel mainOrder _ p.key).2
      ⟨p, hp, hs, ⟨r, mem_mainOrder r, by simpa using hr⟩, rfl⟩
  rw [hclean] at hmem
  cases hmem

/-- C9 on a five-pod cluster: after one pass only the Running pod `a/p2` is left, it
satisfies no predicate, and a second pass deletes nothing. -/
theorem C9_pass_idempotent_witness :
    (∀ r : Rule, r.pred podP2 = false)
      ∧ (cleanupPass (modelCluster (fun _ _ => true)) "" ""
          (cleanupPass (modelCluster (fun _ _ => true)) "" ""
            [podP1, podP2, podP3, podP4, podP5]).1).1 = [podP2] :=
  ⟨(C9_pass_idempotent (fun _ _ => true) "" "" [podP1, podP2, podP3, podP4, podP5]).1
      podP2 (by decide) (by decide),
    (C9_pass_idempotent (fun _ _ => true) "" "" [podP1, podP2, podP3, podP4, podP5]).2.2.trans
      (by decide)⟩

/-- C10: on the model cluster, for every initial state and every order of the four rules
(every permutation of the order of `main`), the final state is the final state of the pass
of `main`, and the set of names whose delete succeeded is the same; that set is the set of
names of the pods in scope satisfying at least one of the four predicates, and, names being
unique in the initial state, the final state is the initial state minus every pod in scope
that satisfies at least one of the four predicates. -/
theorem C10_order_independent (labelMatch : String → List (String × String) → Bool)
    (ns sel : String) (pods : List Pod) (order : List Rule) (hperm : order.Perm mainOrder) :
    (runRules (modelCluster labelMatch) ns sel order pods).1
        = (cleanupPass (modelCluster labelMatch) ns sel pods).1
      ∧ (∀ k, k ∈ deleted (runRules (modelCluster labelMatch) ns sel order pods).2
          ↔ k ∈ deleted (cleanupPass (modelCluster labelMatch) ns sel pods).2)
      ∧ (∀ k, k ∈ deleted (runRules (modelCluster labelMatch) ns sel order pods).2
          ↔ ∃ p ∈ pods, inScope labelMatch ns sel p = true
              ∧ (∃ r : Rule, r.pred p = true) ∧ p.key = k)
      ∧ (uniqueNames pods →
          (runRules (modelCluster labelMatch) ns sel order pods).1
            = pods.filter (fun p =>
                !(inScope labelMatch ns sel p && mainOrder.any (fun r => r.pred p)))) := by
  have hsk := selectedKeys_perm labelMatch ns sel order mainOrder hperm pods
  have hstate : (runRules (modelCluster labelMatch) ns sel order pods).1
      = (cleanupPass (modelCluster labelMatch) ns sel pods).1 := by
    rw [cleanupPass_eq_runRules, model_runRules_state, model_runRules_state, hsk]
  refine ⟨hstate, ?_, ?_, ?_⟩
  · intro k
    rw [cleanupPass_eq_runRules, model_runRules_deleted, model_runRules_deleted, hsk]
  · intro k
    rw [model_runRules_deleted, hsk, mem_selectedKeys]
    constructor
    · rintro ⟨q, hq, hs, ⟨r, _, hr⟩, hk⟩
      exact ⟨q, hq, hs, ⟨r, hr⟩, hk⟩
    · rintro ⟨q, hq, hs, ⟨r, hr⟩, hk⟩
      exact ⟨q, hq, hs, ⟨r, mem_mainOrder r, hr⟩, hk⟩
  · intro huniq
    rw [model_runRules_state, hsk]
    apply List.filter_congr
    intro p hp
    rw [Bool.eq_iff_iff]
    simp only [decide_eq_true_eq, Bool.not_eq_true', Bool.and_eq_false_iff,
      mem_selectedKeys, List.any_eq_true]
    constructor
    · intro h
      by_cases hs : inScope labelMatch ns sel p = true
      · right
        rw [← Bool.not_eq_true, List.any_eq_true]
        rintro ⟨r, hr, hpr⟩
        exact h ⟨p, hp, hs, ⟨r, hr, hpr⟩, rfl⟩
      · left
        simpa using hs
    · rintro h ⟨q, hq, hs, ⟨r, hr, hpr⟩, hk⟩
      have hqp : q = p := List.inj_on_of_nodup_map huniq hq hp hk
      subst hqp
      rcases h with h | h
      · rw [h] at hs
        cases hs
      · have : (mainOrder.any fun r => r.pred q) = true := List.any_eq_true.2 ⟨r, hr, hpr⟩
        rw [h] at this
        cases this

/-- C10 on a five-pod cluster with the rules run in the reverse order of `main`: the final
state is the one of the pass of `main`, the Running pod `a/p2` alone. -/
theorem C10_order_independent_witness :
    (runRules (modelCluster (fun _ _ => true)) "" ""
        [Rule.failed, Rule.imagePull, Rule.crashLoop, Rule.evicted]
        [podP1, podP2, podP3, podP4, podP5]).1
        = (cleanupPass (modelCluster (fun _ _ => true)) "" ""
            [podP1, podP2, podP3, podP4, podP5]).1
      ∧ (runRules (modelCluster (fun _ _ => true)) "" ""
        [Rule.failed, Rule.imagePull, Rule.crashLoop, Rule.evicted]
        [podP1, podP2, podP3, podP4, podP5]).1 = [podP2] :=
  ⟨(C10_order_independent (fun _ _ => true) "" "" [podP1, podP2, podP3, podP4, podP5]
      [Rule.failed, Rule.imagePull, Rule.crashLoop, Rule.evicted]
      (List.reverse_perm mainOrder)).1,
    ((C10_order_independent (fun _ _ => true) "" "" [podP1, podP2, podP3, podP4, podP5]
      [Rule.failed, Rule.imagePull, Rule.crashLoop, Rule.evicted]
      (List.reverse_perm mainOrder)).2.2.2 (by unfold uniqueNames; decide)).trans (by decide)⟩

end KubeCleanup
